import Mathlib

/-!
Verification of the content-stream token reconstruction, matching and
rewriting engine of the glyph_mapper repository.  The Python sources
`glyph_mapper/tj_array_processor_v2.py`, `glyph_mapper/cross_array_processor.py`
and `glyph_mapper/pdf_processor.py` are shallowly embedded below: Python
strings become `List Char`, PyPDF2 array items become the `Item` sum type,
Python dicts become association lists looked up in insertion order, and the
compiled alternation regex becomes an ordered list of literal words matched
by an executable scanner with Python `finditer` semantics (leftmost position,
first alternative, non-overlapping).
-/

namespace GlyphMapper

/-- Characters of a Python `str`, modelled as a list of characters. -/
abbrev Str := List Char

/-- One item of a TJ positioned array: a PyPDF2 `TextStringObject` or a
`NumberObject` (an integer in PyPDF2; `FloatObject` is a distinct class that
the `isinstance(item, NumberObject)` checks in the source do not accept). -/
inductive Item where
  | str (s : Str)
  | num (n : Int)
deriving DecidableEq

/-- The module constant `_SPACE_THRESHOLD = -120`. -/
def spaceThreshold : Int := -120

/-- Polymorphic concat-map used to state flattening facts. -/
def listConcatMap {α β : Type} (f : α → List β) : List α → List β
  | [] => []
  | a :: l => f a ++ listConcatMap f l

/-- Form feed, `'\x0c'`. -/
def formFeedChar : Char := Char.ofNat 0x0c

/-- Vertical tab, `'\x0b'`. -/
def verticalTabChar : Char := Char.ofNat 0x0b

/-- Shift out, `'\x0e'`. -/
def shiftOutChar : Char := Char.ofNat 0x0e

/-- Shift in, `'\x0f'`. -/
def shiftInChar : Char := Char.ofNat 0x0f

/-- Carriage return, `'\r'`. -/
def carriageReturnChar : Char := Char.ofNat 0x0d

/-- Unit separator, `'\x1f'`. -/
def unitSepChar : Char := Char.ofNat 0x1f

/-- Python `str.replace` with a single-character needle. -/
def pyReplaceChar (text : Str) (key : Char) (repl : Str) : Str :=
  match text with
  | [] => []
  | c :: rest => (if c = key then repl else [c]) ++ pyReplaceChar rest key repl

/-- Membership in Python `string.printable`: the ASCII range 0x20-0x7e
(digits, letters, punctuation, space) together with the whitespace
characters tab, newline, carriage return, vertical tab and form feed. -/
def isPrintable (c : Char) : Bool :=
  (0x20 ≤ c.toNat && c.toNat ≤ 0x7e) ||
    c ∈ (['\t', '\n', carriageReturnChar, verticalTabChar, formFeedChar] : List Char)

/-- `TJArrayProcessorV2._clean_special_chars`: six sequential `str.replace`
passes (dict insertion order) followed by the printable-or-newline filter. -/
def cleanSpecialChars (text : Str) : Str :=
  let c1 := pyReplaceChar text formFeedChar ['f', 'i']
  let c2 := pyReplaceChar c1 verticalTabChar ['f', 'l']
  let c3 := pyReplaceChar c2 shiftOutChar ['f', 'f']
  let c4 := pyReplaceChar c3 shiftInChar ['f', 'f', 'i']
  let c5 := pyReplaceChar c4 carriageReturnChar []
  let c6 := pyReplaceChar c5 unitSepChar []
  c6.filter fun ch => isPrintable ch || ch = '\n'

/-- Per-character description of the cleaner, following the specification
wording of section 4.1: the four ligature control codes expand, carriage
return and unit separator vanish, and any remaining character survives
exactly when it is ASCII-printable or a newline. -/
def cleanCharSpec (c : Char) : Str :=
  if c = formFeedChar then ['f', 'i']
  else if c = verticalTabChar then ['f', 'l']
  else if c = shiftOutChar then ['f', 'f']
  else if c = shiftInChar then ['f', 'f', 'i']
  else if c = carriageReturnChar then []
  else if c = unitSepChar then []
  else if isPrintable c || c = '\n' then [c] else []

/-! ## Instruction reconstruction (step 1 of `process_tj_array`) -/

/-- A `text_segments` entry of `process_tj_array`: originating array index,
raw text, cleaned text and half-open range in the flattened view. -/
structure Segment where
  arrayIndex : Nat
  raw : Str
  clean : Str
  startPos : Nat
  stopPos : Nat
deriving DecidableEq

/-- Step 1 of `TJArrayProcessorV2.process_tj_array`: walk the array items
accumulating segments, the per-character owner list and the combined text.
Arguments after the item list are the running array index, character
position and segment index. -/
def extractSegments : List Item → Nat → Nat → Nat →
    List Segment × List (Option Nat) × Str
  | [], _, _, _ => ([], [], [])
  | .str s :: rest, arrayIndex, pos, segIdx =>
    let cl := cleanSpecialChars s
    let r := extractSegments rest (arrayIndex + 1) (pos + cl.length) (segIdx + 1)
    (⟨arrayIndex, s, cl, pos, pos + cl.length⟩ :: r.1,
      cl.map (fun _ => some segIdx) ++ r.2.1,
      cl ++ r.2.2)
  | .num n :: rest, arrayIndex, pos, segIdx =>
    if n ≤ spaceThreshold then
      let r := extractSegments rest (arrayIndex + 1) (pos + 1) segIdx
      (r.1, none :: r.2.1, ' ' :: r.2.2)
    else
      extractSegments rest (arrayIndex + 1) pos segIdx

/-- The combined (flattened) text of a TJ array. -/
def combinedTextOf (items : List Item) : Str :=
  (extractSegments items 0 0 0).2.2

/-- The per-character owner list of a TJ array. -/
def ownersOf (items : List Item) : List (Option Nat) :=
  (extractSegments items 0 0 0).2.1

/-! ## Pattern matching -/

/-- A compiled alternation pattern: the escaped literal words in alternation
order, plus the `re.IGNORECASE` flag. -/
structure RePattern where
  words : List Str
  ignoreCase : Bool
deriving DecidableEq

/-- Case folding of one character; `str.casefold`, `str.lower` and
`re.IGNORECASE` agree on the ASCII range covered by this model. -/
def foldChar (c : Char) : Char := c.toLower

/-- Character comparison under an optional `re.IGNORECASE` flag. -/
def charMatches (ic : Bool) (a b : Char) : Bool :=
  if ic then foldChar a = foldChar b else a = b

/-- Does the literal word `w` match at the start of `text`? -/
def wordAtStart (ic : Bool) : Str → Str → Bool
  | [], _ => true
  | _ :: _, [] => false
  | a :: w, b :: t => charMatches ic a b && wordAtStart ic w t

/-- First alternative matching at the start of `text`; the result is the
matched slice of `text` itself (group 0 keeps the input casing). -/
def firstAlt (ic : Bool) (words : List Str) (text : Str) : Option Str :=
  match words with
  | [] => none
  | w :: ws =>
    if wordAtStart ic w text then some (text.take w.length) else firstAlt ic ws text

/-- One `re.finditer` hit: start position and matched text. -/
structure ReMatch where
  startPos : Nat
  text : Str
deriving DecidableEq

/-- Scanner realizing `re.finditer` for a literal alternation: at each
position try the alternatives in order, emit the first hit, continue after
its end (bumping by one on a zero-width hit).  The fuel argument is
initialized to more than the text length, which the scanner never exceeds. -/
def finditerGo (ic : Bool) (words : List Str) : Nat → Str → Nat → List ReMatch
  | 0, _, _ => []
  | fuel + 1, text, pos =>
    match firstAlt ic words text with
    | some m =>
      if m.length = 0 then
        ⟨pos, m⟩ ::
          (match text with
           | [] => []
           | _ :: rest => finditerGo ic words fuel rest (pos + 1))
      else
        ⟨pos, m⟩ :: finditerGo ic words fuel (text.drop m.length) (pos + m.length)
    | none =>
      match text with
      | [] => []
      | _ :: rest => finditerGo ic words fuel rest (pos + 1)

/-- `list(pattern.finditer(text))`. -/
def finditer (p : RePattern) (text : Str) : List ReMatch :=
  finditerGo p.ignoreCase p.words (text.length + 1) text 0

/-- Python `dict` lookup over an association list in insertion order. -/
def dictGet (d : List (Str × Str)) (k : Str) : Option Str :=
  match d with
  | [] => none
  | (k2, v) :: rest => if k2 = k then some v else dictGet rest k

/-- Python `str.casefold` (and `str.lower`), modelled on the ASCII range
where the two coincide. -/
def casefold (s : Str) : Str := s.map foldChar

/-- `TJArrayProcessorV2._resolve_replacement`: exact lookup first, then the
case-folded table keyed by the casefolded token. -/
def resolveReplacement (mapping mappingCf : List (Str × Str)) (token : Str) : Option Str :=
  match dictGet mapping token with
  | some r => some r
  | none => dictGet mappingCf (casefold token)

/-! ## Replacement application (`_apply_replacements`) -/

/-- One replacement record as built by `_apply_replacements`. -/
structure Replacement where
  startPos : Nat
  stopPos : Nat
  original : Str
  replacement : Str
deriving DecidableEq

/-- The match loop of `_apply_replacements`: hits whose resolution is absent,
empty or identical to the hit are skipped (the cursor does not move); applied
hits contribute the untouched gap and the replacement to `pieces` and advance
the cursor to the match end.  The trailing `text[cursor:]` piece lands in the
base case (the source appends it after checking `replacements` is non-empty,
and the caller discards `pieces` entirely when it is empty). -/
def buildReplacements (mapping mappingCf : List (Str × Str)) (text : Str) :
    List ReMatch → Nat → List Str × List Replacement
  | [], cursor => ([text.drop cursor], [])
  | m :: rest, cursor =>
    match resolveReplacement mapping mappingCf m.text with
    | none => buildReplacements mapping mappingCf text rest cursor
    | some repl =>
      if repl = [] ∨ repl = m.text then
        buildReplacements mapping mappingCf text rest cursor
      else
        let r := buildReplacements mapping mappingCf text rest (m.startPos + m.text.length)
        (((text.drop cursor).take (m.startPos - cursor)) :: repl :: r.1,
          ⟨m.startPos, m.startPos + m.text.length, m.text, repl⟩ :: r.2)

/-- Concatenation of the pieces list (`"".join(pieces)`). -/
def strJoin : List Str → Str
  | [] => []
  | s :: rest => s ++ strJoin rest

/-- `TJArrayProcessorV2._apply_replacements`. -/
def applyReplacements (pattern : Option RePattern) (mapping mappingCf : List (Str × Str))
    (text : Str) : Option (Str × List Replacement) :=
  match pattern with
  | none => none
  | some p =>
    let ms := finditer p text
    if ms = [] then none
    else
      let r := buildReplacements mapping mappingCf text ms 0
      if r.2 = [] then none
      else some (strJoin r.1, r.2)

/-! ## Owner resolution and rebuild (steps 2 and 3) -/

/-- Owner at an index, `None` past the end (the guarded accesses of the
source; the unguarded ones happen under the length invariant proved below). -/
def ownerAt (owners : List (Option Nat)) (i : Nat) : Option Nat :=
  match owners[i]? with
  | some o => o
  | none => none

/-- First defined owner in a list (the body of the two search loops). -/
def firstOwner : List (Option Nat) → Option Nat
  | [] => none
  | some o :: _ => some o
  | none :: rest => firstOwner rest

/-- Backward loop `for idx in range(k, -1, -1)` of
`_resolve_owner_for_replacement`, returning the first defined owner. -/
def scanBackFrom (owners : List (Option Nat)) : Nat → Option Nat
  | 0 => ownerAt owners 0
  | k + 1 =>
    match ownerAt owners (k + 1) with
    | some o => some o
    | none => scanBackFrom owners k

/-- `TJArrayProcessorV2._resolve_owner_for_replacement`. -/
def resolveOwnerForReplacement (owners : List (Option Nat)) (start stop : Nat) :
    Option Nat :=
  match owners[start]? with
  | some (some o) => some o
  | _ =>
    let b := min start owners.length
    match (if b = 0 then none else scanBackFrom owners (b - 1)) with
    | some o => some o
    | none => firstOwner (owners.drop (min stop owners.length))

/-- Copy loop of step 2: `count` characters starting at `cursor`, each with
its original owner (`None` past the end of the owner list). -/
def copyChars (combined : Str) (owners : List (Option Nat)) :
    Nat → Nat → Str × List (Option Nat)
  | _, 0 => ([], [])
  | cursor, k + 1 =>
    let r := copyChars combined owners (cursor + 1) k
    (combined.getD cursor ' ' :: r.1, ownerAt owners cursor :: r.2)

/-- Step 2 of `process_tj_array`: rebuild the character and owner sequences,
copying untouched gaps and assigning every replacement character the owner
resolved for its match. -/
def rebuildChars (combined : Str) (owners : List (Option Nat)) :
    List Replacement → Nat → Str × List (Option Nat)
  | [], cursor => copyChars combined owners cursor (combined.length - cursor)
  | r :: rest, cursor =>
    let pre := copyChars combined owners cursor (r.startPos - cursor)
    let ownerIdx := resolveOwnerForReplacement owners r.startPos r.stopPos
    let tail := rebuildChars combined owners rest r.stopPos
    (pre.1 ++ r.replacement ++ tail.1,
      pre.2 ++ r.replacement.map (fun _ => ownerIdx) ++ tail.2)

/-- Append one character to the string at index `k` (`new_segment_texts[k] += ch`). -/
def appendAt : List Str → Nat → Char → List Str
  | [], _, _ => []
  | s :: rest, 0, c => (s ++ [c]) :: rest
  | s :: rest, k + 1, c => s :: appendAt rest k c

/-- Step 3 of `process_tj_array`: aggregate rebuilt characters back into
their owning segments; characters with no owner are dropped. -/
def aggregate : List (Char × Option Nat) → List Str → List Str
  | [], acc => acc
  | (_, none) :: rest, acc => aggregate rest acc
  | (c, some k) :: rest, acc => aggregate rest (appendAt acc k c)

/-! ## Write-back (step 4) and the whole single-instruction rewriter -/

/-- Is a trailing character one that `_restore_special_chars` preserves? -/
def isSpecialTailChar (c : Char) : Bool :=
  c ∈ ([formFeedChar, carriageReturnChar, '\n', '\t',
        verticalTabChar, shiftOutChar, shiftInChar] : List Char)

/-- `TJArrayProcessorV2._restore_special_chars`: re-append the original
trailing run of special characters. -/
def restoreSpecialChars (newText original : Str) : Str :=
  newText ++ (original.reverse.takeWhile isSpecialTailChar).reverse

/-- Step 4 of `process_tj_array`: string items whose aggregated text is
unchanged are emitted as the original item; changed ones become new string
items; everything else passes through.  `segIdx` counts string items, which
realizes the `array_index_to_segment` dictionary. -/
def writeBack (segs : List Segment) (newTexts : List Str) :
    List Item → Nat → List Item × Bool
  | [], _ => ([], false)
  | .str s :: rest, segIdx =>
    let r := writeBack segs newTexts rest (segIdx + 1)
    match segs[segIdx]? with
    | none => (.str s :: r.1, r.2)
    | some seg =>
      let newClean := newTexts.getD segIdx []
      if newClean = seg.clean then (.str s :: r.1, r.2)
      else (.str (restoreSpecialChars newClean seg.raw) :: r.1, true)
  | item :: rest, segIdx =>
    let r := writeBack segs newTexts rest segIdx
    (item :: r.1, r.2)

/-- `TJArrayProcessorV2.process_tj_array`. -/
def processTjArray (pattern : Option RePattern) (mapping mappingCf : List (Str × Str))
    (items : List Item) : List Item × Bool :=
  if items = [] then (items, false)
  else
    let e := extractSegments items 0 0 0
    if e.2.2 = [] then (items, false)
    else
      match applyReplacements pattern mapping mappingCf e.2.2 with
      | none => (items, false)
      | some r =>
        let rb := rebuildChars e.2.2 e.2.1 r.2 0
        let newTexts := aggregate (rb.1.zip rb.2) (List.replicate e.1.length [])
        writeBack e.1 newTexts items 0

/-! ## Content-stream operations and the cross-array processor -/

/-- A content-stream operator; only `TJ` and `Tj` are inspected. -/
inductive Operator where
  | TJ
  | Tj
  | other (name : Str)
deriving DecidableEq

/-- One operand of a content-stream instruction. -/
inductive Operand where
  | arr (items : List Item)
  | text (s : Str)
  | number (n : Int)
deriving DecidableEq

/-- One `(operands, operator)` pair of a content stream. -/
abbrev Op := List Operand × Operator

/-- Python `str(...)` on an operand.  The `Tj` branch of the source only ever
receives `TextStringObject` operands; the other renderings are placeholders
for shapes the claims never exercise. -/
def pyStr : Operand → Str
  | .text s => s
  | .number n => (toString n).toList
  | .arr _ => ['[', ']']

/-- `pattern.search(text) is not None` for the literal-alternation pattern. -/
def patternSearch (pattern : Option RePattern) (text : Str) : Bool :=
  match pattern with
  | none => false
  | some p => !(finditer p text).isEmpty

/-- Python slice assignment `result[:start] + replacement + result[end:]`. -/
def replaceSlice (s : Str) (start stop : Nat) (repl : Str) : Str :=
  s.take start ++ repl ++ s.drop stop

/-- `CrossArrayProcessor._apply_pattern_replacement`: fold the reversed match
list, re-splicing each resolvable, changing replacement. -/
def applyPatternReplacement (pattern : Option RePattern) (mapping mappingCf : List (Str × Str))
    (text : Str) : Str :=
  match pattern with
  | none => text
  | some p =>
    ((finditer p text).reverse).foldl
      (fun result m =>
        match resolveReplacement mapping mappingCf m.text with
        | none => result
        | some repl =>
          if repl = [] ∨ repl = m.text then result
          else replaceSlice result m.startPos (m.startPos + m.text.length) repl)
      text

/-- Per-instruction body of `CrossArrayProcessor._apply_v2_processor`. -/
def v2ProcessOp (pattern : Option RePattern) (mapping mappingCf : List (Str × Str))
    (operands : List Operand) (op : Operator) : Op × Bool :=
  match op, operands with
  | .TJ, os@(.arr items :: _) =>
    let pr := processTjArray pattern mapping mappingCf items
    if pr.2 then (([.arr pr.1], .TJ), true) else ((os, .TJ), false)
  | .Tj, o1 :: _ =>
    let text := pyStr o1
    if patternSearch pattern text then
      let modifiedText := applyPatternReplacement pattern mapping mappingCf text
      if modifiedText ≠ text then (([.text modifiedText], .Tj), true)
      else ((operands, .Tj), false)
    else ((operands, .Tj), false)
  | _, _ => ((operands, op), false)

/-- `CrossArrayProcessor._apply_v2_processor`. -/
def applyV2Processor (pattern : Option RePattern) (mapping mappingCf : List (Str × Str)) :
    List Op → List Op × Bool
  | [] => ([], false)
  | (operands, op) :: rest =>
    let h := v2ProcessOp pattern mapping mappingCf operands op
    let r := applyV2Processor pattern mapping mappingCf rest
    (h.1 :: r.1, h.2 || r.2)

/-- Collect `(index, array)` pairs for `TJ` operations whose first operand is
an array. -/
def tjOperationsFrom : List Op → Nat → List (Nat × List Item)
  | [], _ => []
  | (operands, op) :: rest, i =>
    match op, operands with
    | .TJ, .arr items :: _ => (i, items) :: tjOperationsFrom rest (i + 1)
    | _, _ => tjOperationsFrom rest (i + 1)

/-- `CrossArrayProcessor._extract_array_text`: cleaned string items plus one
space per numeric adjustment at or below -120; every other number
contributes nothing. -/
def extractArrayText : List Item → Str
  | [] => []
  | .str s :: rest => cleanSpecialChars s ++ extractArrayText rest
  | .num n :: rest =>
    if n ≤ -120 then ' ' :: extractArrayText rest else extractArrayText rest

/-- `' '.join(parts)`. -/
def joinWithSpace : List Str → Str
  | [] => []
  | [s] => s
  | s :: rest => s ++ ' ' :: joinWithSpace rest

/-- `CrossArrayProcessor._build_window_text`: join the non-empty
per-instruction texts with single spaces. -/
def buildWindowText (window : List (Nat × List Item)) : Str :=
  joinWithSpace ((window.map fun w => extractArrayText w.2).filter fun t => !t.isEmpty)

/-! ## Decimal-recovery patterns -/

/-- `\d` over ASCII. -/
def isDigitChar (c : Char) : Bool := '0' ≤ c && c ≤ '9'

/-- `\s` over ASCII: space, tab, newline, carriage return, vertical tab,
form feed. -/
def isSpaceChar (c : Char) : Bool :=
  c ∈ ([' ', '\t', '\n', carriageReturnChar, verticalTabChar, formFeedChar] : List Char)

/-- The optional head `(?:=\s*)?` shared by the three decimal-recovery
patterns.  Declining the `=` can never rescue a failed attempt, because the
alternative branch needs a digit where the `=` stands, so the greedy
consumption is equivalent to backtracking. -/
def dropEqSpaces (s : Str) : Str :=
  match s with
  | '=' :: rest => rest.dropWhile isSpaceChar
  | _ => s

/-- Groups produced by one decimal-recovery pattern attempt: total consumed
length, the single digit of group 1 and the digit run of group 2. -/
structure DecGroups where
  consumed : Nat
  digit1 : Char
  digit2 : Str
deriving DecidableEq

/-- Match `(?:=\s*)?(\d)\s*:\s*(\d+):` at the start of `s`.  Every quantifier
boundary separates disjoint character classes, so greedy maximal munch
coincides with the backtracking semantics. -/
def matchSplitColon (s : Str) : Option DecGroups :=
  match dropEqSpaces s with
  | d1 :: s2 =>
    if isDigitChar d1 then
      match s2.dropWhile isSpaceChar with
      | ':' :: s4 =>
        let s5 := s4.dropWhile isSpaceChar
        let ds := s5.takeWhile isDigitChar
        if ds = [] then none
        else
          match s5.dropWhile isDigitChar with
          | ':' :: s7 => some ⟨s.length - s7.length, d1, ds⟩
          | _ => none
      | _ => none
    else none
  | [] => none

/-- Match `(?:=\s*)?(\d)\s+(\d+):` at the start of `s`. -/
def matchSplitSpace (s : Str) : Option DecGroups :=
  match dropEqSpaces s with
  | d1 :: s2 =>
    if isDigitChar d1 then
      if s2.takeWhile isSpaceChar = [] then none
      else
        let s3 := s2.dropWhile isSpaceChar
        let ds := s3.takeWhile isDigitChar
        if ds = [] then none
        else
          match s3.dropWhile isDigitChar with
          | ':' :: s5 => some ⟨s.length - s5.length, d1, ds⟩
          | _ => none
    else none
  | [] => none

/-- Match `(?:=\s*)?(\d)\s*(\d+):` at the start of `s`. -/
def matchSplitBare (s : Str) : Option DecGroups :=
  match dropEqSpaces s with
  | d1 :: s2 =>
    if isDigitChar d1 then
      let s3 := s2.dropWhile isSpaceChar
      let ds := s3.takeWhile isDigitChar
      if ds = [] then none
      else
        match s3.dropWhile isDigitChar with
        | ':' :: s5 => some ⟨s.length - s5.length, d1, ds⟩
        | _ => none
    else none
  | [] => none

/-- A raw hit of one decimal-recovery pattern: span, groups and group 0. -/
structure RawDecMatch where
  startPos : Nat
  stopPos : Nat
  digit1 : Char
  digit2 : Str
  group0 : Str
deriving DecidableEq

/-- `re.finditer` for one decimal-recovery pattern (every hit consumes at
least one character, so the scan advances; fuel exceeds the text length). -/
def decFinditerGo (matcher : Str → Option DecGroups) :
    Nat → Str → Nat → List RawDecMatch
  | 0, _, _ => []
  | fuel + 1, text, pos =>
    match matcher text with
    | some g =>
      ⟨pos, pos + g.consumed, g.digit1, g.digit2, text.take g.consumed⟩ ::
        decFinditerGo matcher fuel (text.drop g.consumed) (pos + g.consumed)
    | none =>
      match text with
      | [] => []
      | _ :: rest => decFinditerGo matcher fuel rest (pos + 1)

/-- All hits of one decimal-recovery pattern over a window text. -/
def decFinditer (matcher : Str → Option DecGroups) (text : Str) : List RawDecMatch :=
  decFinditerGo matcher (text.length + 1) text 0

/-- A kept decimal-recovery match: span, synthesized token, group 0. -/
structure DecMatch where
  startPos : Nat
  stopPos : Nat
  text : Str
  originalMatch : Str
deriving DecidableEq

/-- `CrossArrayProcessor._find_split_decimal_patterns`: for each of the three
patterns, synthesize `digit1 + "." + digit2 + ":"` for every hit and keep it
only when the token is a key of `mapping` or its lowering a key of
`mapping_cf`. -/
def findSplitDecimalPatterns (mapping mappingCf : List (Str × Str)) (windowText : Str) :
    List DecMatch :=
  let keep : (Str → Option DecGroups) → List DecMatch := fun matcher =>
    (decFinditer matcher windowText).filterMap fun m =>
      let reconstructed := m.digit1 :: '.' :: (m.digit2 ++ [':'])
      if (dictGet mapping reconstructed).isSome ||
          (dictGet mappingCf (reconstructed.map Char.toLower)).isSome then
        some ⟨m.startPos, m.stopPos, reconstructed, m.group0⟩
      else none
  keep matchSplitColon ++ keep matchSplitSpace ++ keep matchSplitBare

/-! ## Cross-array matching and rewriting -/

/-- A cross-array match record (`matches.append({...})` in
`_find_cross_array_matches`). -/
structure CrossMatch where
  windowStart : Nat
  windowOperations : List (Nat × List Item)
  matchStart : Nat
  matchStop : Nat
  original : Str
  replacement : Str
  windowText : Str
deriving DecidableEq

/-- `CrossArrayProcessor._find_cross_array_matches`: slide a window of up to
three TJ operations, gather regular pattern hits and decimal-recovery hits,
and keep those whose resolution exists, is non-empty and differs. -/
def findCrossArrayMatches (p : RePattern) (mapping mappingCf : List (Str × Str))
    (tjOps : List (Nat × List Item)) : List CrossMatch :=
  (List.range (tjOps.length - 1)).flatMap fun i =>
    let window := (tjOps.drop i).take 3
    let windowText := buildWindowText window
    let patternHits := (finditer p windowText).map fun m =>
      (m.startPos, m.startPos + m.text.length, m.text)
    let decimalHits := (findSplitDecimalPatterns mapping mappingCf windowText).map fun d =>
      (d.startPos, d.stopPos, d.text)
    (patternHits ++ decimalHits).filterMap fun t =>
      match resolveReplacement mapping mappingCf t.2.2 with
      | none => none
      | some repl =>
        if repl = [] ∨ repl = t.2.2 then none
        else some ⟨i, window, t.1, t.2.1, t.2.2, repl, windowText⟩

/-- Replace a list element at an index, leaving the list unchanged when the
index is out of range. -/
def setAt {α : Type} : List α → Nat → α → List α
  | [], _, _ => []
  | _ :: rest, 0, a => a :: rest
  | x :: rest, n + 1, a => x :: setAt rest n a

/-- `CrossArrayProcessor._replace_digit_in_array` (loop body). -/
def replaceDigitInArrayGo (oldDigit newDigit : Char) : List Item → List Item × Bool
  | [] => ([], false)
  | .str s :: rest =>
    let r := replaceDigitInArrayGo oldDigit newDigit rest
    if oldDigit ∈ s then
      (.str (pyReplaceChar s oldDigit [newDigit]) :: r.1, true)
    else (.str s :: r.1, r.2)
  | item :: rest =>
    let r := replaceDigitInArrayGo oldDigit newDigit rest
    (item :: r.1, r.2)

/-- `CrossArrayProcessor._replace_digit_in_array`. -/
def replaceDigitInArray (items : List Item) (oldDigit newDigit : Char) :
    Option (List Item) :=
  let r := replaceDigitInArrayGo oldDigit newDigit items
  if r.2 then some r.1 else none

/-- Is `pat` a substring of `s` (Python `in`)? -/
def hasSubstr : Str → Str → Bool
  | s, pat =>
    match s with
    | [] => pat.isEmpty
    | _ :: rest => pat.isPrefixOf s || hasSubstr rest pat

/-- Python `str.replace` with a multi-character needle: leftmost,
non-overlapping.  The empty-needle case never arises in the source. -/
def pyReplaceSub (pat repl : Str) : Str → Str
  | [] => []
  | c :: rest =>
    if pat.isPrefixOf (c :: rest) ∧ pat ≠ [] then
      repl ++ pyReplaceSub pat repl (rest.drop (pat.length - 1))
    else c :: pyReplaceSub pat repl rest
termination_by s => s.length
decreasing_by
  · simpa using Nat.lt_succ_of_le (Nat.sub_le _ _)
  · simp

/-- `CrossArrayProcessor._replace_digit_with_decimal_in_array` (loop body):
`"d:" → ".n:"`, or for strings holding the digit but no point, `"d" → ".n"`. -/
def replaceDigitWithDecimalGo (oldDigit newDigit : Char) : List Item → List Item × Bool
  | [] => ([], false)
  | .str s :: rest =>
    let r := replaceDigitWithDecimalGo oldDigit newDigit rest
    if hasSubstr s [oldDigit, ':'] then
      (.str (pyReplaceSub [oldDigit, ':'] ['.', newDigit, ':'] s) :: r.1, true)
    else if oldDigit ∈ s ∧ '.' ∉ s then
      (.str (pyReplaceSub [oldDigit] ['.', newDigit] s) :: r.1, true)
    else (.str s :: r.1, r.2)
  | item :: rest =>
    let r := replaceDigitWithDecimalGo oldDigit newDigit rest
    (item :: r.1, r.2)

/-- `CrossArrayProcessor._replace_digit_with_decimal_in_array`. -/
def replaceDigitWithDecimalInArray (items : List Item) (oldDigit newDigit : Char) :
    Option (List Item) :=
  let r := replaceDigitWithDecimalGo oldDigit newDigit items
  if r.2 then some r.1 else none

/-- Python `str.split` on a single separator character. -/
def splitOn (sep : Char) : Str → List Str
  | [] => [[]]
  | c :: rest =>
    let r := splitOn sep rest
    if c = sep then [] :: r
    else
      match r with
      | h :: t => (c :: h) :: t
      | [] => [[c]]

/-- `CrossArrayProcessor._apply_decimal_cross_array_replacement`: substitute
the first original digit in the first window instruction and insert the
decimal point in the second.  List reads happen through `get?`; an index
miss leaves the list untouched, matching the `except`-guarded source where
such reads cannot fail for pipeline-produced matches. -/
def applyDecimalCrossArrayReplacement (ops : List Op) (m : CrossMatch) :
    List Op × Bool :=
  if m.windowOperations.length < 2 then (ops, false)
  else if (splitOn '.' m.original).length ≠ 2 ∨
      (splitOn '.' m.replacement).length ≠ 2 then (ops, false)
  else
    let origDigits := m.original.filter isDigitChar
    let replDigits := m.replacement.filter isDigitChar
    if origDigits.length ≠ 2 ∨ replDigits.length ≠ 2 then (ops, false)
    else
      let origDigit1 := origDigits.getD 0 ' '
      let origDigit2 := origDigits.getD 1 ' '
      let replDigit1 := replDigits.getD 0 ' '
      let replDigit2 := replDigits.getD 1 ' '
      let firstIdx := (m.windowOperations.getD 0 (0, [])).1
      let step1 :=
        match ops[firstIdx]? with
        | some (Operand.arr items :: _, Operator.TJ) =>
          match replaceDigitInArray items origDigit1 replDigit1 with
          | some newItems => (setAt ops firstIdx ([.arr newItems], .TJ), true)
          | none => (ops, false)
        | _ => (ops, false)
      let secondIdx := (m.windowOperations.getD 1 (0, [])).1
      let step2 :=
        match step1.1[secondIdx]? with
        | some (Operand.arr items :: _, Operator.TJ) =>
          match replaceDigitWithDecimalInArray items origDigit2 replDigit2 with
          | some newItems => (setAt step1.1 secondIdx ([.arr newItems], .TJ), true)
          | none => (step1.1, false)
        | _ => (step1.1, false)
      (step2.1, step1.2 || step2.2)

/-- `CrossArrayProcessor._create_modified_array_for_cross_replacement`.
The source declares `Optional[ArrayObject]` but every path returns an array,
so the caller's `if modified_array:` truthiness check degenerates to a
non-emptiness check on the returned array. -/
def createModifiedArrayForCrossReplacement (items : List Item)
    (original replacement : Str) : List Item :=
  items.map fun item =>
    match item with
    | .str s =>
      let decimalBranch : Option Item :=
        if '.' ∈ original ∧ ':' ∈ original then
          let origParts := splitOn '.' original
          let replParts := splitOn '.' replacement
          if origParts.length = 2 ∧ replParts.length = 2 then
            let origDigit := origParts.getD 0 []
            let replDigit := replParts.getD 0 []
            if hasSubstr s origDigit then
              some (.str (pyReplaceSub origDigit replDigit s))
            else none
          else none
        else none
      match decimalBranch with
      | some it => it
      | none =>
        if s.any isDigitChar ∧ original.any isDigitChar then
          let origDigits := original.filter isDigitChar
          let replDigits := replacement.filter isDigitChar
          if origDigits ≠ [] ∧ replDigits ≠ [] then
            let firstOrigDigit := origDigits.getD 0 ' '
            let firstReplDigit := replDigits.getD 0 ' '
            if firstOrigDigit ∈ s then
              .str (pyReplaceChar s firstOrigDigit [firstReplDigit])
            else .str s
          else .str s
        else .str s
    | _ => item

/-- `CrossArrayProcessor._apply_simple_cross_array_replacement`: localized
substitution confined to the first contributing instruction.  A missing
window entry corresponds to the `IndexError` swallowed by the dispatcher's
`except`, which returns `False` without touching the list. -/
def applySimpleCrossArrayReplacement (ops : List Op) (m : CrossMatch) :
    List Op × Bool :=
  match m.windowOperations[0]? with
  | none => (ops, false)
  | some (targetIdx, _) =>
    match ops[targetIdx]? with
    | some (Operand.arr items :: _, Operator.TJ) =>
      let modifiedArray := createModifiedArrayForCrossReplacement items m.original m.replacement
      if modifiedArray ≠ [] then (setAt ops targetIdx ([.arr modifiedArray], .TJ), true)
      else (ops, false)
    | _ => (ops, false)

/-- `CrossArrayProcessor._apply_cross_array_replacement` dispatch. -/
def applyCrossArrayReplacement (ops : List Op) (m : CrossMatch) : List Op × Bool :=
  if ('.' ∈ m.original ∧ ':' ∈ m.original) ∧ 2 ≤ m.windowOperations.length then
    applyDecimalCrossArrayReplacement ops m
  else
    applySimpleCrossArrayReplacement ops m

/-- `CrossArrayProcessor._apply_cross_array_processing`. -/
def applyCrossArrayProcessing (pattern : Option RePattern)
    (mapping mappingCf : List (Str × Str)) (ops : List Op) : List Op × Bool :=
  match pattern with
  | none => (ops, false)
  | some p =>
    let tjOps := tjOperationsFrom ops 0
    if tjOps.length < 2 then (ops, false)
    else
      let crossMatches := findCrossArrayMatches p mapping mappingCf tjOps
      if crossMatches = [] then (ops, false)
      else
        crossMatches.reverse.foldl
          (fun acc m =>
            let r := applyCrossArrayReplacement acc.1 m
            (r.1, acc.2 || r.2))
          (ops, false)

/-- `CrossArrayProcessor.process_content_operations`. -/
def processContentOperations (pattern : Option RePattern)
    (mapping mappingCf : List (Str × Str)) (ops : List Op) : List Op × Bool :=
  if ops = [] then (ops, false)
  else
    let r1 := applyV2Processor pattern mapping mappingCf ops
    let r2 := applyCrossArrayProcessing pattern mapping mappingCf r1.1
    (r2.1, r1.2 || r2.2)

/-! ## Pattern building (`pdf_processor._build_pattern`) -/

/-- Insertion into a list kept sorted by word length, longest first; equal
lengths keep their relative order (Python `sorted` is stable). -/
def insertByLen (w : Str) : List Str → List Str
  | [] => [w]
  | x :: xs => if x.length < w.length then w :: x :: xs else x :: insertByLen w xs

/-- `sorted(words, key=len, reverse=True)`. -/
def sortByLenDesc : List Str → List Str
  | [] => []
  | w :: ws => insertByLen w (sortByLenDesc ws)

/-- `_build_pattern`: deduplicate (the Python `set`, whose iteration order
is immaterial after sorting by length), sort longest-first, and compile the
alternation; an empty word list yields no pattern. -/
def buildPattern (words : List Str) (ignoreCase : Bool) : Option RePattern :=
  let ordered := sortByLenDesc words.dedup
  if ordered = [] then none
  else some ⟨ordered, ignoreCase⟩

/-! ## Derived definitions used to state the claims -/

/-- Contribution of one array item to the flattened text, as section 4.2 of
the specification words it: cleaned text for string items, one inferred
space for numeric adjustments at or below the threshold, nothing otherwise. -/
def itemTextContrib : Item → Str
  | .str s => cleanSpecialChars s
  | .num n => if n ≤ spaceThreshold then [' '] else []

/-- Specification-side owner sequence: each cleaned character is owned by
its segment, inferred spaces have no owner; `k` numbers the segments. -/
def specOwners : List Item → Nat → List (Option Nat)
  | [], _ => []
  | .str s :: rest, k => (cleanSpecialChars s).map (fun _ => some k) ++ specOwners rest (k + 1)
  | .num n :: rest, k =>
    (if n ≤ spaceThreshold then [none] else []) ++ specOwners rest k

/-- Number of string items in a list (the segment index of the next string
item after the list). -/
def strCount (l : List Item) : Nat :=
  (l.filter fun it => match it with | .str _ => true | .num _ => false).length

/-- The per-segment aggregated texts produced by one `process_tj_array` run;
on the no-rewrite paths every segment keeps its cleaned text. -/
def aggregatedTexts (pattern : Option RePattern) (mapping mappingCf : List (Str × Str))
    (items : List Item) : List Str :=
  let e := extractSegments items 0 0 0
  if e.2.2 = [] then e.1.map (·.clean)
  else
    match applyReplacements pattern mapping mappingCf e.2.2 with
    | none => e.1.map (·.clean)
    | some r =>
      let rb := rebuildChars e.2.2 e.2.1 r.2 0
      aggregate (rb.1.zip rb.2) (List.replicate e.1.length [])

/-- The item that step 4 emits for the string item numbered `j` whose raw
text is `s`: the original item when the aggregated text equals the cleaned
text, a fresh string item with the trailing specials restored otherwise. -/
def strItemOut (segs : List Segment) (newTexts : List Str) (j : Nat) (s : Str) : Item :=
  match segs[j]? with
  | none => .str s
  | some seg =>
    if newTexts.getD j [] = seg.clean then .str s
    else .str (restoreSpecialChars (newTexts.getD j []) seg.raw)

/-- The aggregated text claim C1 compares against a segment's cleaned text:
the entry of `aggregatedTexts` for the string item at array position `i`,
defaulting to the cleaned raw text when out of range (which cannot happen
for a string item's index). -/
def aggregatedTextAt (pattern : Option RePattern) (mapping mappingCf : List (Str × Str))
    (items : List Item) (i : Nat) (s : Str) : Str :=
  (aggregatedTexts pattern mapping mappingCf items).getD (strCount (items.take i))
    (cleanSpecialChars s)

/-- Does the word occur (as a pattern hit could find it) anywhere in the
text?  Executable counterpart of `∃ i, wordAtStart ic w (text.drop i)`. -/
def occursInB (ic : Bool) (w : Str) : Str → Bool
  | [] => wordAtStart ic w []
  | c :: rest => wordAtStart ic w (c :: rest) || occursInB ic w rest

/-- Matches of an optional pattern (`[]` when there is no pattern). -/
def patternMatches (pattern : Option RePattern) (text : Str) : List ReMatch :=
  match pattern with
  | none => []
  | some p => finditer p text

/-- Is the first operand an array (`isinstance(operands[0], ArrayObject)`)? -/
def headIsArr : List Operand → Bool
  | .arr _ :: _ => true
  | _ => false

/-! ## Concrete inputs used by counterexamples and witnesses -/

/-- Two TJ instructions whose flattened texts are `"= 0"` and `"9:"`. -/
def exOps09 : List Op :=
  [([.arr [.str ("= 0".toList)]], .TJ), ([.arr [.str ("9:".toList)]], .TJ)]

/-- The mapping `{"0.9:": "1.2:"}`. -/
def exMap09 : List (Str × Str) := [(("0.9:".toList), ("1.2:".toList))]

/-- The compiled pattern for the single key `"0.9:"`. -/
def exPat09 : Option RePattern := buildPattern [("0.9:".toList)] true

/-- The spec's segment-boundary example array `["He", -50, "llo", 500, " world"]`. -/
def exItemsHello : List Item :=
  [.str ("He".toList), .num (-50), .str ("llo".toList), .num 500, .str (" world".toList)]

/-- The mapping `{"Hello": "Howdy"}`. -/
def exMapHello : List (Str × Str) := [(("Hello".toList), ("Howdy".toList))]

/-- The case-folded table derived from `exMapHello`. -/
def exMapHelloCf : List (Str × Str) := [(("hello".toList), ("Howdy".toList))]

/-- The compiled pattern for the single key `"Hello"`. -/
def exPatHello : Option RePattern := buildPattern [("Hello".toList)] true

/-- Operations for the C8 failing input: `["Good"] TJ` then `["bye"] TJ`. -/
def exOpsGoodbye : List Op :=
  [([.arr [.str ("Good".toList)]], .TJ), ([.arr [.str ("bye".toList)]], .TJ)]

/-- A simple (non-decimal) cross-array match for `"bye" → "Zed"` targeting
the first instruction of `exOpsGoodbye`, as `_find_cross_array_matches`
would record it for window 0 with window text `"Good bye"`. -/
def exMatchBye : CrossMatch :=
  ⟨0, [(0, [.str ("Good".toList)]), (1, [.str ("bye".toList)])], 5, 8,
    ("bye".toList), ("Zed".toList), ("Good bye".toList)⟩

/-! # Theorems -/

theorem pyReplaceChar_append (a b : Str) (k : Char) (r : Str) :
    pyReplaceChar (a ++ b) k r = pyReplaceChar a k r ++ pyReplaceChar b k r := by
  induction a with
  | nil => rfl
  | cons c rest ih => simp [pyReplaceChar, ih]

theorem cleanSpecialChars_append (a b : Str) :
    cleanSpecialChars (a ++ b) = cleanSpecialChars a ++ cleanSpecialChars b := by
  simp [cleanSpecialChars, pyReplaceChar_append, List.filter_append]

theorem cleanSpecialChars_single (c : Char) : cleanSpecialChars [c] = cleanCharSpec c := by
  by_cases h1 : c = formFeedChar
  · subst h1; rfl
  · by_cases h2 : c = verticalTabChar
    · subst h2; rfl
    · by_cases h3 : c = shiftOutChar
      · subst h3; rfl
      · by_cases h4 : c = shiftInChar
        · subst h4; rfl
        · by_cases h5 : c = carriageReturnChar
          · subst h5; rfl
          · by_cases h6 : c = unitSepChar
            · subst h6; rfl
            · simp [cleanSpecialChars, pyReplaceChar, cleanCharSpec,
                h1, h2, h3, h4, h5, h6, List.filter]
              cases h : (isPrintable c || decide (c = '\n')) <;>
                simp_all [Bool.or_eq_true, decide_eq_true_eq]

/-- C6: the token cleaner acts characterwise: form feed expands to "fi",
vertical tab to "fl", shift-out to "ff", shift-in to "ffi", carriage return
and unit separator vanish, and every remaining character is kept exactly
when it is ASCII-printable or a newline, the substitutions happening before
the printable filter so their expansions survive it; as a total function of
the input it is deterministic and raises no error. -/
theorem claim_C6_token_cleaner (text : Str) :
    cleanSpecialChars text = listConcatMap cleanCharSpec text := by
  induction text with
  | nil => rfl
  | cons c rest ih =>
    have h : (c :: rest) = [c] ++ rest := rfl
    rw [h, cleanSpecialChars_append, cleanSpecialChars_single, ih]
    rfl

theorem extractSegments_text (items : List Item) :
    ∀ ai pos si,
      (extractSegments items ai pos si).2.2 = listConcatMap itemTextContrib items := by
  induction items with
  | nil => intro ai pos si; rfl
  | cons it rest ih =>
    intro ai pos si
    cases it with
    | str s => simp [extractSegments, itemTextContrib, listConcatMap, ih]
    | num n =>
      by_cases h : n ≤ spaceThreshold <;>
        simp [extractSegments, itemTextContrib, listConcatMap, h, ih]

theorem extractSegments_owners (items : List Item) :
    ∀ ai pos si,
      (extractSegments items ai pos si).2.1 = specOwners items si := by
  induction items with
  | nil => intro ai pos si; rfl
  | cons it rest ih =>
    intro ai pos si
    cases it with
    | str s => simp [extractSegments, specOwners, ih]
    | num n =>
      by_cases h : n ≤ spaceThreshold <;>
        simp [extractSegments, specOwners, h, ih]

theorem extractSegments_len (items : List Item) :
    ∀ ai pos si,
      (extractSegments items ai pos si).2.2.length =
        (extractSegments items ai pos si).2.1.length := by
  induction items with
  | nil => intro ai pos si; rfl
  | cons it rest ih =>
    intro ai pos si
    cases it with
    | str s => simp [extractSegments, ih]
    | num n =>
      by_cases h : n ≤ spaceThreshold <;> simp [extractSegments, h, ih]

/-- C5: for every positioned-array input the flattened text and the owner
sequence have equal length; each string item contributes its cleaned
characters owned by that segment, each numeric item at or below the space
threshold -120 contributes one inferred ownerless space, and every other
numeric item contributes nothing. -/
theorem claim_C5_flatten_invariant (items : List Item) :
    (combinedTextOf items).length = (ownersOf items).length ∧
    combinedTextOf items = listConcatMap itemTextContrib items ∧
    ownersOf items = specOwners items 0 :=
  ⟨extractSegments_len items 0 0 0, extractSegments_text items 0 0 0,
    extractSegments_owners items 0 0 0⟩

theorem ownerAt_cons_succ (x : Option Nat) (rest : List (Option Nat)) (i : Nat) :
    ownerAt (x :: rest) (i + 1) = ownerAt rest i := by
  simp [ownerAt]

theorem ownerAt_cons_zero (x : Option Nat) (rest : List (Option Nat)) :
    ownerAt (x :: rest) 0 = x := by
  simp [ownerAt]

theorem ownerAt_nil (i : Nat) : ownerAt [] i = none := by
  simp [ownerAt]

theorem ownerAt_some_lt {owners : List (Option Nat)} {j o : Nat}
    (h : ownerAt owners j = some o) : j < owners.length := by
  by_contra hlt
  have hg : owners[j]? = none := List.getElem?_eq_none (Nat.le_of_not_lt hlt)
  simp [ownerAt, hg] at h

theorem scanBackFrom_some (owners : List (Option Nat)) (j o : Nat)
    (hj : ownerAt owners j = some o) :
    ∀ k, j ≤ k → (∀ j2, j < j2 → j2 ≤ k → ownerAt owners j2 = none) →
      scanBackFrom owners k = some o := by
  intro k
  induction k with
  | zero =>
    intro hk _
    have : j = 0 := Nat.le_zero.mp hk
    subst this
    simpa [scanBackFrom] using hj
  | succ k ih =>
    intro hk habove
    by_cases hje : j = k + 1
    · subst hje
      simp [scanBackFrom, hj]
    · have hjk : j ≤ k := Nat.lt_succ_iff.mp (Nat.lt_of_le_of_ne hk hje)
      have htop : ownerAt owners (k + 1) = none :=
        habove (k + 1) (Nat.lt_succ_of_le hjk) (Nat.le_refl _)
      have := ih hjk (fun j2 h1 h2 => habove j2 h1 (Nat.le_succ_of_le h2))
      simp [scanBackFrom, htop, this]

theorem scanBackFrom_none (owners : List (Option Nat)) :
    ∀ k, (∀ j, j ≤ k → ownerAt owners j = none) → scanBackFrom owners k = none := by
  intro k
  induction k with
  | zero =>
    intro h
    simp [scanBackFrom, h 0 (Nat.le_refl _)]
  | succ k ih =>
    intro h
    have htop := h (k + 1) (Nat.le_refl _)
    have := ih (fun j hj => h j (Nat.le_succ_of_le hj))
    simp [scanBackFrom, htop, this]

theorem firstOwner_drop_some (owners : List (Option Nat)) :
    ∀ k j o, k ≤ j → ownerAt owners j = some o →
      (∀ j2, k ≤ j2 → j2 < j → ownerAt owners j2 = none) →
      firstOwner (owners.drop k) = some o := by
  induction owners with
  | nil =>
    intro k j o _ hj _
    rw [ownerAt_nil] at hj
    exact absurd hj (by simp)
  | cons x rest ih =>
    intro k j o hk hj hbelow
    cases k with
    | zero =>
      cases j with
      | zero =>
        rw [ownerAt_cons_zero] at hj
        subst hj
        rfl
      | succ j =>
        have hx : x = none := by
          have := hbelow 0 (Nat.zero_le _) (Nat.succ_pos _)
          rwa [ownerAt_cons_zero] at this
        subst hx
        rw [ownerAt_cons_succ] at hj
        show firstOwner (none :: rest) = some o
        have : firstOwner rest = some o := by
          have hrest : (rest.drop 0) = rest := rfl
          rw [← hrest]
          refine ih 0 j o (Nat.zero_le _) hj ?_
          intro j2 _ h2
          have := hbelow (j2 + 1) (Nat.zero_le _) (Nat.succ_lt_succ h2)
          rwa [ownerAt_cons_succ] at this
        simpa [firstOwner] using this
    | succ k =>
      cases j with
      | zero => exact absurd hk (by omega)
      | succ j =>
        rw [ownerAt_cons_succ] at hj
        show firstOwner (rest.drop k) = some o
        refine ih k j o (Nat.le_of_succ_le_succ hk) hj ?_
        intro j2 h1 h2
        have := hbelow (j2 + 1) (Nat.succ_le_succ h1) (Nat.succ_lt_succ h2)
        rwa [ownerAt_cons_succ] at this

theorem firstOwner_drop_none (owners : List (Option Nat)) :
    ∀ k, (∀ j, k ≤ j → j < owners.length → ownerAt owners j = none) →
      firstOwner (owners.drop k) = none := by
  induction owners with
  | nil => intro k _; simp [firstOwner]
  | cons x rest ih =>
    intro k h
    cases k with
    | zero =>
      have hx : x = none := by
        have := h 0 (Nat.le_refl _) (by simp)
        rwa [ownerAt_cons_zero] at this
      subst hx
      show firstOwner (none :: rest) = none
      have : firstOwner rest = none := by
        have hrest : (rest.drop 0) = rest := rfl
        rw [← hrest]
        refine ih 0 ?_
        intro j _ hlen
        have := h (j + 1) (Nat.zero_le _) (by simpa using Nat.succ_lt_succ hlen)
        rwa [ownerAt_cons_succ] at this
      simpa [firstOwner] using this
    | succ k =>
      show firstOwner (rest.drop k) = none
      refine ih k ?_
      intro j h1 hlen
      have := h (j + 1) (Nat.succ_le_succ h1) (by simpa using Nat.succ_lt_succ hlen)
      rwa [ownerAt_cons_succ] at this

theorem resolveOwner_guard_fail (owners : List (Option Nat)) (start stop : Nat)
    (h : ownerAt owners start = none) :
    resolveOwnerForReplacement owners start stop =
      (match (if min start owners.length = 0 then none
              else scanBackFrom owners (min start owners.length - 1)) with
       | some o => some o
       | none => firstOwner (owners.drop (min stop owners.length))) := by
  unfold resolveOwnerForReplacement
  cases hg : owners[start]? with
  | none => rfl
  | some x =>
    cases x with
    | none => rfl
    | some o => simp [ownerAt, hg] at h

/-- C4: the owner assigned to a match's replacement characters follows
exactly the precedence of `_resolve_owner_for_replacement` — the owner at
the match start when defined, else the nearest defined owner scanning
backward from `start - 1`, else the nearest defined owner scanning forward
from the match end, else no owner — and ownerless characters are dropped by
the re-aggregation step. -/
theorem claim_C4_owner_resolution (owners : List (Option Nat)) (start stop : Nat) :
    (∀ o, ownerAt owners start = some o →
      resolveOwnerForReplacement owners start stop = some o) ∧
    (ownerAt owners start = none →
      ∀ j o, j < start → ownerAt owners j = some o →
        (∀ j2, j2 < start → j < j2 → ownerAt owners j2 = none) →
        resolveOwnerForReplacement owners start stop = some o) ∧
    (ownerAt owners start = none →
      (∀ j, j < start → ownerAt owners j = none) →
      ∀ j o, stop ≤ j → ownerAt owners j = some o →
        (∀ j2, j2 < j → stop ≤ j2 → ownerAt owners j2 = none) →
        resolveOwnerForReplacement owners start stop = some o) ∧
    (ownerAt owners start = none →
      (∀ j, j < start → ownerAt owners j = none) →
      (∀ j, j < owners.length → stop ≤ j → ownerAt owners j = none) →
      resolveOwnerForReplacement owners start stop = none) ∧
    (∀ c rest acc, aggregate ((c, none) :: rest) acc = aggregate rest acc) := by
  refine ⟨?_, ?_, ?_, ?_, fun c rest acc => rfl⟩
  · intro o h
    have hg : owners[start]? = some (some o) := by
      cases hg : owners[start]? with
      | none => simp [ownerAt, hg] at h
      | some x => simp [ownerAt, hg] at h; rw [h]
    unfold resolveOwnerForReplacement
    rw [hg]
  · intro h j o hjs hjo habove
    rw [resolveOwner_guard_fail owners start stop h]
    have hjlen : j < owners.length := ownerAt_some_lt hjo
    have hjb : j < min start owners.length := lt_min hjs hjlen
    have hb0 : min start owners.length ≠ 0 := Nat.not_eq_zero_of_lt hjb
    have hscan : scanBackFrom owners (min start owners.length - 1) = some o := by
      apply scanBackFrom_some owners j o hjo
      · omega
      · intro j2 h1 h2
        exact habove j2 (by omega) h1
    simp [hb0, hscan]
  · intro h hback j o hstop hjo hbelow
    rw [resolveOwner_guard_fail owners start stop h]
    have hjlen : j < owners.length := ownerAt_some_lt hjo
    have hmin : min stop owners.length = stop := Nat.min_eq_left (by omega)
    have hscan : (if min start owners.length = 0 then none
        else scanBackFrom owners (min start owners.length - 1)) = none := by
      by_cases hb0 : min start owners.length = 0
      · simp [hb0]
      · have : scanBackFrom owners (min start owners.length - 1) = none := by
          apply scanBackFrom_none
          intro j2 hj2
          exact hback j2 (by omega)
        simp [hb0, this]
    have hfwd : firstOwner (owners.drop (min stop owners.length)) = some o := by
      rw [hmin]
      exact firstOwner_drop_some owners stop j o hstop hjo
        (fun j2 h1 h2 => hbelow j2 h2 h1)
    rw [hscan]
    simpa using hfwd
  · intro h hback hfwd
    rw [resolveOwner_guard_fail owners start stop h]
    have hscan : (if min start owners.length = 0 then none
        else scanBackFrom owners (min start owners.length - 1)) = none := by
      by_cases hb0 : min start owners.length = 0
      · simp [hb0]
      · have : scanBackFrom owners (min start owners.length - 1) = none := by
          apply scanBackFrom_none
          intro j2 hj2
          exact hback j2 (by omega)
        simp [hb0, this]
    have hdrop : firstOwner (owners.drop (min stop owners.length)) = none := by
      apply firstOwner_drop_none
      intro j h1 h2
      exact hfwd j h2 (by omega)
    rw [hscan]
    simpa using hdrop

/-- Witness for C4: in `[some 3, none, none]` a match starting at position 2
takes its owner from the backward scan, which finds segment 3 at position 0. -/
theorem claim_C4_witness :
    resolveOwnerForReplacement [some 3, none, none] 2 2 = some 3 :=
  (claim_C4_owner_resolution [some 3, none, none] 2 2).2.1 (by decide) 0 3
    (by decide) (by decide) (by decide)

theorem mem_insertByLen {w y : Str} :
    ∀ l, y ∈ insertByLen w l ↔ y = w ∨ y ∈ l := by
  intro l
  induction l with
  | nil => simp [insertByLen]
  | cons x xs ih =>
    unfold insertByLen
    by_cases hlt : x.length < w.length
    · simp [hlt, List.mem_cons]
    · simp [hlt, List.mem_cons, ih]
      tauto

theorem insertByLen_sorted (w : Str) :
    ∀ l, List.Sorted (fun a b : Str => b.length ≤ a.length) l →
      List.Sorted (fun a b : Str => b.length ≤ a.length) (insertByLen w l) := by
  intro l
  induction l with
  | nil => intro _; simp [insertByLen]
  | cons x xs ih =>
    intro h
    rw [List.sorted_cons] at h
    obtain ⟨hx, hxs⟩ := h
    by_cases hlt : x.length < w.length
    · have heq : insertByLen w (x :: xs) = w :: x :: xs := by
        simp [insertByLen, hlt]
      rw [heq, List.sorted_cons]
      refine ⟨?_, by rw [List.sorted_cons]; exact ⟨hx, hxs⟩⟩
      intro y hy
      rcases List.mem_cons.mp hy with h1 | h2
      · subst h1; exact Nat.le_of_lt hlt
      · exact Nat.le_trans (hx y h2) (Nat.le_of_lt hlt)
    · have heq : insertByLen w (x :: xs) = x :: insertByLen w xs := by
        simp [insertByLen, hlt]
      rw [heq, List.sorted_cons]
      refine ⟨?_, ih hxs⟩
      intro y hy
      rcases (mem_insertByLen _).mp hy with h1 | h2
      · subst h1; exact Nat.le_of_not_lt hlt
      · exact hx y h2

theorem sortByLenDesc_sorted :
    ∀ l, List.Sorted (fun a b : Str => b.length ≤ a.length) (sortByLenDesc l) := by
  intro l
  induction l with
  | nil => simp [sortByLenDesc]
  | cons w ws ih => exact insertByLen_sorted w _ ih

/-- C3: the compiled alternation pattern lists the candidate words longest
first, and for the mapping cat↦X, category↦Y on the input "category" the
matcher produces exactly the single match category↦Y at span 0-8, never a
"cat" hit with a residual "egory". -/
theorem claim_C3_longest_first :
    (∀ words ic p, buildPattern words ic = some p →
      List.Sorted (fun a b : Str => b.length ≤ a.length) p.words) ∧
    applyReplacements (buildPattern [("cat".toList), ("category".toList)] true)
        [(("cat".toList), ("X".toList)), (("category".toList), ("Y".toList))]
        [(("cat".toList), ("X".toList)), (("category".toList), ("Y".toList))]
        ("category".toList) =
      some (("Y".toList), [⟨0, 8, ("category".toList), ("Y".toList)⟩]) := by
  constructor
  · intro words ic p h
    unfold buildPattern at h
    by_cases he : sortByLenDesc words.dedup = []
    · simp [he] at h
    · simp [he] at h
      rw [← h]
      exact sortByLenDesc_sorted _
  · decide

/-- Witness for C3: the sortedness statement applied to the concrete word
list of the example produces a longest-first alternation. -/
theorem claim_C3_witness :
    List.Sorted (fun a b : Str => b.length ≤ a.length)
      [("category".toList), ("cat".toList)] :=
  claim_C3_longest_first.1 [("cat".toList), ("category".toList)] true
    ⟨[("category".toList), ("cat".toList)], true⟩ (by decide)

theorem occursInB_false_iff (ic : Bool) (w : Str) :
    ∀ text, occursInB ic w text = false ↔
      ∀ i, wordAtStart ic w (text.drop i) = false := by
  intro text
  induction text with
  | nil =>
    simp [occursInB]
  | cons c rest ih =>
    constructor
    · intro h i
      rw [occursInB] at h
      rcases Bool.or_eq_false_iff.mp h with ⟨h1, h2⟩
      cases i with
      | zero => simpa using h1
      | succ i => exact (ih.mp h2) i
    · intro h
      rw [occursInB, Bool.or_eq_false_iff]
      exact ⟨by simpa using h 0, ih.mpr fun i => h (i + 1)⟩

theorem firstAlt_none_of (ic : Bool) (words : List Str) (t : Str)
    (h : ∀ w ∈ words, wordAtStart ic w t = false) : firstAlt ic words t = none := by
  induction words with
  | nil => rfl
  | cons w ws ih =>
    rw [firstAlt]
    rw [h w (List.mem_cons_self _ _)]
    exact ih fun w2 hw2 => h w2 (List.mem_cons_of_mem _ hw2)

theorem finditerGo_empty (ic : Bool) (words : List Str) (text : Str)
    (h : ∀ w ∈ words, ∀ i, wordAtStart ic w (text.drop i) = false) :
    ∀ fuel j pos, finditerGo ic words fuel (text.drop j) pos = [] := by
  intro fuel
  induction fuel with
  | zero => intro j pos; rfl
  | succ fuel ih =>
    intro j pos
    have hfa : firstAlt ic words (text.drop j) = none :=
      firstAlt_none_of ic words _ (fun w hw => h w hw j)
    cases hd : text.drop j with
    | nil => simp [finditerGo, hd, hd ▸ hfa]
    | cons c rest =>
      have hrest : rest = text.drop (j + 1) := by
        have ht := List.tail_drop text j
        rw [hd] at ht
        simpa using ht
      rw [hd] at hfa
      simp only [finditerGo, hfa]
      rw [hrest]
      exact ih (j + 1) (pos + 1)

theorem finditer_empty (p : RePattern) (text : Str)
    (h : ∀ w ∈ p.words, occursInB p.ignoreCase w text = false) :
    finditer p text = [] := by
  unfold finditer
  have h2 : ∀ w ∈ p.words, ∀ i, wordAtStart p.ignoreCase w (text.drop i) = false :=
    fun w hw => (occursInB_false_iff _ _ _).mp (h w hw)
  have := finditerGo_empty p.ignoreCase p.words text h2 (text.length + 1) 0 0
  simpa using this

theorem buildReplacements_empty (mapping mappingCf : List (Str × Str)) (text : Str) :
    ∀ ms cursor,
      (∀ m ∈ ms, resolveReplacement mapping mappingCf m.text = none ∨
        resolveReplacement mapping mappingCf m.text = some [] ∨
        resolveReplacement mapping mappingCf m.text = some m.text) →
      (buildReplacements mapping mappingCf text ms cursor).2 = [] := by
  intro ms
  induction ms with
  | nil => intro cursor _; rfl
  | cons m rest ih =>
    intro cursor h
    have hm := h m (List.mem_cons_self _ _)
    have hrest : ∀ m2 ∈ rest, resolveReplacement mapping mappingCf m2.text = none ∨
        resolveReplacement mapping mappingCf m2.text = some [] ∨
        resolveReplacement mapping mappingCf m2.text = some m2.text :=
      fun m2 hm2 => h m2 (List.mem_cons_of_mem _ hm2)
    rcases hm with h1 | h2 | h3
    · rw [buildReplacements, h1]
      exact ih cursor hrest
    · rw [buildReplacements, h2]
      have hc : ([] : Str) = [] ∨ ([] : Str) = m.text := Or.inl rfl
      dsimp only
      rw [if_pos hc]
      exact ih cursor hrest
    · rw [buildReplacements, h3]
      have hc : m.text = [] ∨ m.text = m.text := Or.inr rfl
      dsimp only
      rw [if_pos hc]
      exact ih cursor hrest

theorem applyReplacements_some_def (p : RePattern) (mapping mappingCf : List (Str × Str))
    (text : Str) :
    applyReplacements (some p) mapping mappingCf text =
      (if finditer p text = [] then none
       else if (buildReplacements mapping mappingCf text (finditer p text) 0).2 = [] then none
       else some (strJoin (buildReplacements mapping mappingCf text (finditer p text) 0).1,
         (buildReplacements mapping mappingCf text (finditer p text) 0).2)) := rfl

theorem processTjArray_of_applyRepl_none (pattern : Option RePattern)
    (mapping mappingCf : List (Str × Str)) (items : List Item)
    (h : applyReplacements pattern mapping mappingCf (combinedTextOf items) = none) :
    processTjArray pattern mapping mappingCf items = (items, false) := by
  unfold combinedTextOf at h
  unfold processTjArray
  by_cases h1 : items = []
  · simp [h1]
  · rw [if_neg h1]
    by_cases h2 : (extractSegments items 0 0 0).2.2 = []
    · simp [h2]
    · rw [if_neg h2]
      simp [h]

/-- C2 (amended): for the single-instruction rewrite pass, when no pattern
word occurs in the instruction's flattened text — and more generally
whenever every pattern hit resolves to no replacement, an empty one, or
text identical to the hit — `process_tj_array` returns the input array
object itself with modified=false. -/
theorem claim_C2_no_change_no_modify (pattern : Option RePattern)
    (mapping mappingCf : List (Str × Str)) (items : List Item) :
    ((match pattern with
      | none => True
      | some p => ∀ w ∈ p.words,
          occursInB p.ignoreCase w (combinedTextOf items) = false) →
      processTjArray pattern mapping mappingCf items = (items, false)) ∧
    ((∀ m ∈ patternMatches pattern (combinedTextOf items),
        resolveReplacement mapping mappingCf m.text = none ∨
        resolveReplacement mapping mappingCf m.text = some [] ∨
        resolveReplacement mapping mappingCf m.text = some m.text) →
      processTjArray pattern mapping mappingCf items = (items, false)) := by
  constructor
  · intro h
    apply processTjArray_of_applyRepl_none
    cases pattern with
    | none => rfl
    | some p =>
      have hfe : finditer p (combinedTextOf items) = [] := finditer_empty p _ h
      rw [applyReplacements_some_def, if_pos hfe]
  · intro h
    apply processTjArray_of_applyRepl_none
    cases pattern with
    | none => rfl
    | some p =>
      rw [applyReplacements_some_def]
      by_cases hms : finditer p (combinedTextOf items) = []
      · rw [if_pos hms]
      · rw [if_neg hms]
        have hb := buildReplacements_empty mapping mappingCf (combinedTextOf items)
          (finditer p (combinedTextOf items)) 0 (by simpa [patternMatches] using h)
        rw [if_pos hb]

/-- Witness for C2: a mapping whose key "zzz" occurs nowhere in the
flattened text "Hello" leaves the instruction untouched. -/
theorem claim_C2_witness :
    processTjArray (some ⟨[("zzz".toList)], true⟩)
      [(("zzz".toList), ("qqq".toList))] [(("zzz".toList), ("qqq".toList))]
      [.str ("Hello".toList)] = ([.str ("Hello".toList)], false) :=
  (claim_C2_no_change_no_modify (some ⟨[("zzz".toList)], true⟩)
    [(("zzz".toList), ("qqq".toList))] [(("zzz".toList), ("qqq".toList))]
    [.str ("Hello".toList)]).1 (by decide)

/-- Counterexample to C2 as stated: the mapping {"0.9:" ↦ "1.2:"} has a key
that occurs in no instruction's flattened text ("= 0" and "9:"), nor even in
the joined window text "= 0 9:", yet the full rewrite pass reports
modified=true because the cross-instruction decimal-recovery heuristic
synthesizes the token "0.9:" from the window text and applies a
replacement. -/
theorem claim_C2_counterexample :
    occursInB true ("0.9:".toList) (combinedTextOf [.str ("= 0".toList)]) = false ∧
    occursInB true ("0.9:".toList) (combinedTextOf [.str ("9:".toList)]) = false ∧
    occursInB true ("0.9:".toList) (buildWindowText (tjOperationsFrom exOps09 0)) = false ∧
    (processContentOperations exPat09 exMap09 exMap09 exOps09).2 = true := by
  decide

theorem matchSplitColon_shape {s : Str} {g : DecGroups}
    (h : matchSplitColon s = some g) :
    isDigitChar g.digit1 = true ∧ g.digit2 ≠ [] ∧
      ∀ c ∈ g.digit2, isDigitChar c = true := by
  unfold matchSplitColon at h
  iterate 10 (all_goals try (first | (split at h) | (dsimp only at h)))
  all_goals cases h
  refine ⟨by assumption, by assumption, ?_⟩
  intro c hc
  exact List.mem_takeWhile_imp hc

theorem matchSplitSpace_shape {s : Str} {g : DecGroups}
    (h : matchSplitSpace s = some g) :
    isDigitChar g.digit1 = true ∧ g.digit2 ≠ [] ∧
      ∀ c ∈ g.digit2, isDigitChar c = true := by
  unfold matchSplitSpace at h
  iterate 10 (all_goals try (first | (split at h) | (dsimp only at h)))
  all_goals cases h
  refine ⟨by assumption, by assumption, ?_⟩
  intro c hc
  exact List.mem_takeWhile_imp hc

theorem matchSplitBare_shape {s : Str} {g : DecGroups}
    (h : matchSplitBare s = some g) :
    isDigitChar g.digit1 = true ∧ g.digit2 ≠ [] ∧
      ∀ c ∈ g.digit2, isDigitChar c = true := by
  unfold matchSplitBare at h
  iterate 10 (all_goals try (first | (split at h) | (dsimp only at h)))
  all_goals cases h
  refine ⟨by assumption, by assumption, ?_⟩
  intro c hc
  exact List.mem_takeWhile_imp hc

theorem decFinditerGo_succ (matcher : Str → Option DecGroups) (fuel : Nat)
    (text : Str) (pos : Nat) :
    decFinditerGo matcher (fuel + 1) text pos =
      match matcher text with
      | some g =>
        ⟨pos, pos + g.consumed, g.digit1, g.digit2, text.take g.consumed⟩ ::
          decFinditerGo matcher fuel (text.drop g.consumed) (pos + g.consumed)
      | none =>
        match text with
        | [] => []
        | _ :: rest => decFinditerGo matcher fuel rest (pos + 1) := rfl

theorem decFinditerGo_shape (matcher : Str → Option DecGroups)
    (hm : ∀ s g, matcher s = some g → isDigitChar g.digit1 = true ∧ g.digit2 ≠ [] ∧
      ∀ c ∈ g.digit2, isDigitChar c = true) :
    ∀ fuel text pos m, m ∈ decFinditerGo matcher fuel text pos →
      isDigitChar m.digit1 = true ∧ m.digit2 ≠ [] ∧
        ∀ c ∈ m.digit2, isDigitChar c = true := by
  intro fuel
  induction fuel with
  | zero => intro text pos m hmem; simp [decFinditerGo] at hmem
  | succ fuel ih =>
    intro text pos m hmem
    rw [decFinditerGo_succ] at hmem
    cases hg : matcher text with
    | some g =>
      rw [hg] at hmem
      rcases List.mem_cons.mp hmem with h1 | h2
      · subst h1
        exact hm text g hg
      · exact ih _ _ _ h2
    | none =>
      rw [hg] at hmem
      cases text with
      | nil => simp at hmem
      | cons c rest => exact ih _ _ _ hmem

/-- C7: every decimal-recovery match emitted by
`_find_split_decimal_patterns` carries a synthesized token of the form
digit1 ++ "." ++ digit2 ++ ":" (digit2 being the non-empty digit run of the
second capture group), and that token is a key of the exact mapping table or
its lowering a key of the case-folded one; candidates resolving through
neither table are never emitted. -/
theorem claim_C7_decimal_recovery_gated {mapping mappingCf : List (Str × Str)}
    {windowText : Str} {m : DecMatch}
    (hmem : m ∈ findSplitDecimalPatterns mapping mappingCf windowText) :
    (∃ d1 ds, isDigitChar d1 = true ∧ ds ≠ [] ∧ (∀ c ∈ ds, isDigitChar c = true) ∧
      m.text = d1 :: '.' :: (ds ++ [':'])) ∧
    ((dictGet mapping m.text).isSome = true ∨
      (dictGet mappingCf (m.text.map Char.toLower)).isSome = true) := by
  unfold findSplitDecimalPatterns at hmem
  dsimp only at hmem
  rcases List.mem_append.mp hmem with hmem2 | hb
  case _ =>
    rcases List.mem_append.mp hmem2 with h1 | h2
    case _ =>
      rcases List.mem_filterMap.mp h1 with ⟨raw, hraw, hkeep⟩
      have hshape := decFinditerGo_shape matchSplitColon
        (fun s g h => matchSplitColon_shape h) _ _ _ _ hraw
      by_cases hcond : ((dictGet mapping (raw.digit1 :: '.' :: (raw.digit2 ++ [':']))).isSome ||
          (dictGet mappingCf ((raw.digit1 :: '.' :: (raw.digit2 ++ [':'])).map Char.toLower)).isSome) = true
      · rw [if_pos hcond] at hkeep
        injection hkeep with hkeep
        subst hkeep
        refine ⟨⟨raw.digit1, raw.digit2, hshape.1, hshape.2.1, hshape.2.2, rfl⟩, ?_⟩
        exact (by simpa using hcond)
      · rw [if_neg hcond] at hkeep
        exact absurd hkeep (by simp)
    case _ =>
      rcases List.mem_filterMap.mp h2 with ⟨raw, hraw, hkeep⟩
      have hshape := decFinditerGo_shape matchSplitSpace
        (fun s g h => matchSplitSpace_shape h) _ _ _ _ hraw
      by_cases hcond : ((dictGet mapping (raw.digit1 :: '.' :: (raw.digit2 ++ [':']))).isSome ||
          (dictGet mappingCf ((raw.digit1 :: '.' :: (raw.digit2 ++ [':'])).map Char.toLower)).isSome) = true
      · rw [if_pos hcond] at hkeep
        injection hkeep with hkeep
        subst hkeep
        refine ⟨⟨raw.digit1, raw.digit2, hshape.1, hshape.2.1, hshape.2.2, rfl⟩, ?_⟩
        exact (by simpa using hcond)
      · rw [if_neg hcond] at hkeep
        exact absurd hkeep (by simp)
  case _ =>
    rcases List.mem_filterMap.mp hb with ⟨raw, hraw, hkeep⟩
    have hshape := decFinditerGo_shape matchSplitBare
      (fun s g h => matchSplitBare_shape h) _ _ _ _ hraw
    by_cases hcond : ((dictGet mapping (raw.digit1 :: '.' :: (raw.digit2 ++ [':']))).isSome ||
        (dictGet mappingCf ((raw.digit1 :: '.' :: (raw.digit2 ++ [':'])).map Char.toLower)).isSome) = true
    · rw [if_pos hcond] at hkeep
      injection hkeep with hkeep
      subst hkeep
      refine ⟨⟨raw.digit1, raw.digit2, hshape.1, hshape.2.1, hshape.2.2, rfl⟩, ?_⟩
      exact (by simpa using hcond)
    · rw [if_neg hcond] at hkeep
      exact absurd hkeep (by simp)

/-- Witness for C7: on the window text "= 0 9:" with mapping {"0.9:"↦…} the
first emitted decimal-recovery match is well-shaped and gated. -/
theorem claim_C7_witness :
    (∃ d1 ds, isDigitChar d1 = true ∧ ds ≠ [] ∧ (∀ c ∈ ds, isDigitChar c = true) ∧
      (DecMatch.mk 0 6 ("0.9:".toList) ("= 0 9:".toList)).text = d1 :: '.' :: (ds ++ [':'])) ∧
    ((dictGet exMap09 (DecMatch.mk 0 6 ("0.9:".toList) ("= 0 9:".toList)).text).isSome = true ∨
      (dictGet exMap09 ((DecMatch.mk 0 6 ("0.9:".toList) ("= 0 9:".toList)).text.map Char.toLower)).isSome = true) :=
  @claim_C7_decimal_recovery_gated exMap09 exMap09 ("= 0 9:".toList)
    (DecMatch.mk 0 6 ("0.9:".toList) ("= 0 9:".toList)) (by decide)

/-- C8 (code defect, evaluated): for a simple (non-decimal) cross-array
match whose original "bye" has its first character 'b' in no string item of
the targeted first instruction ["Good"], the rewriter still reports
applied=true — `_create_modified_array_for_cross_replacement` always
returns an array and the caller checks only its truthiness — while the
instruction list is rebuilt value-identical. -/
theorem claim_C8_code_eval :
    hasSubstr ("Good".toList) ['b'] = false ∧
    ("Good".toList).any isDigitChar = false ∧
    applyCrossArrayReplacement exOpsGoodbye exMatchBye = (exOpsGoodbye, true) := by
  decide

theorem setAt_getElem?_ne {α : Type} (l : List α) (a : α) :
    ∀ i j, i ≠ j → (setAt l j a)[i]? = l[i]? := by
  induction l with
  | nil => intro i j _; rfl
  | cons x rest ih =>
    intro i j hne
    cases j with
    | zero =>
      cases i with
      | zero => exact absurd rfl hne
      | succ i => simp [setAt]
    | succ j =>
      cases i with
      | zero => simp [setAt]
      | succ i =>
        simp only [setAt, List.getElem?_cons_succ]
        exact ih i j (fun h => hne (by rw [h]))

theorem setAt_arr_preserve {ops : List Op} {idx : Nat} {op2 : Op} {i : Nat}
    {operands : List Operand}
    (h : ops[i]? = some (operands, Operator.TJ))
    (hna : headIsArr operands = false)
    (harr : ∃ items opTail, ops[idx]? = some (Operand.arr items :: opTail, Operator.TJ)) :
    (setAt ops idx op2)[i]? = some (operands, Operator.TJ) := by
  have hne : i ≠ idx := by
    intro he
    subst he
    obtain ⟨items, opTail, harr⟩ := harr
    rw [harr] at h
    injection h with h
    have h1 : Operand.arr items :: opTail = operands := congrArg Prod.fst h
    rw [← h1] at hna
    simp [headIsArr] at hna
  rw [setAt_getElem?_ne _ _ i idx hne]
  exact h

theorem applySimpleCrossArrayReplacement_preserve (ops : List Op) (mm : CrossMatch)
    (i : Nat) (operands : List Operand)
    (h : ops[i]? = some (operands, Operator.TJ))
    (hna : headIsArr operands = false) :
    (applySimpleCrossArrayReplacement ops mm).1[i]? = some (operands, Operator.TJ) := by
  unfold applySimpleCrossArrayReplacement
  cases hw : mm.windowOperations[0]? with
  | none => exact h
  | some tgt =>
    obtain ⟨targetIdx, win⟩ := tgt
    dsimp only
    cases hop : ops[targetIdx]? with
    | none => exact h
    | some op =>
      obtain ⟨opnds, oper⟩ := op
      rcases opnds with _ | ⟨o1, otail⟩
      · cases oper <;> exact h
      · rcases o1 with items | s | n
        · cases oper with
          | TJ =>
            dsimp only
            by_cases hm : createModifiedArrayForCrossReplacement items mm.original mm.replacement ≠ []
            · rw [if_pos hm]
              exact setAt_arr_preserve h hna ⟨items, otail, hop⟩
            · rw [if_neg hm]
              exact h
          | Tj => exact h
          | other name => exact h
        · cases oper <;> exact h
        · cases oper <;> exact h

theorem applyDecimalCrossArrayReplacement_preserve (ops : List Op) (mm : CrossMatch)
    (i : Nat) (operands : List Operand)
    (h : ops[i]? = some (operands, Operator.TJ))
    (hna : headIsArr operands = false) :
    (applyDecimalCrossArrayReplacement ops mm).1[i]? = some (operands, Operator.TJ) := by
  unfold applyDecimalCrossArrayReplacement
  by_cases h1 : mm.windowOperations.length < 2
  · rw [if_pos h1]; exact h
  rw [if_neg h1]
  by_cases h2 : (splitOn '.' mm.original).length ≠ 2 ∨ (splitOn '.' mm.replacement).length ≠ 2
  · rw [if_pos h2]; exact h
  rw [if_neg h2]
  by_cases h3 : (mm.original.filter isDigitChar).length ≠ 2 ∨
      (mm.replacement.filter isDigitChar).length ≠ 2
  · rw [if_pos h3]; exact h
  rw [if_neg h3]
  dsimp only
  have hstep1 : ∀ st1 : List Op × Bool,
      st1.1[i]? = some (operands, Operator.TJ) →
      (match st1.1[(mm.windowOperations.getD 1 (0, [])).1]? with
        | some (Operand.arr items :: _, Operator.TJ) =>
          match replaceDigitWithDecimalInArray items
              ((mm.original.filter isDigitChar).getD 1 ' ')
              ((mm.replacement.filter isDigitChar).getD 1 ' ') with
          | some newItems =>
            (setAt st1.1 (mm.windowOperations.getD 1 (0, [])).1
              ([Operand.arr newItems], Operator.TJ), true)
          | none => (st1.1, false)
        | _ => (st1.1, false)).1[i]? = some (operands, Operator.TJ) := by
    intro st1 hst
    cases hop : st1.1[(mm.windowOperations.getD 1 (0, [])).1]? with
    | none => exact hst
    | some op =>
      obtain ⟨opnds, oper⟩ := op
      rcases opnds with _ | ⟨o1, otail⟩
      · cases oper <;> exact hst
      · rcases o1 with items | s | n
        · cases oper with
          | TJ =>
            dsimp only
            cases replaceDigitWithDecimalInArray items
                ((mm.original.filter isDigitChar).getD 1 ' ')
                ((mm.replacement.filter isDigitChar).getD 1 ' ') with
            | some newItems => exact setAt_arr_preserve hst hna ⟨items, otail, hop⟩
            | none => exact hst
          | Tj => exact hst
          | other name => exact hst
        · cases oper <;> exact hst
        · cases oper <;> exact hst
  cases hop : ops[(mm.windowOperations.getD 0 (0, [])).1]? with
  | none => exact hstep1 _ h
  | some op =>
    obtain ⟨opnds, oper⟩ := op
    rcases opnds with _ | ⟨o1, otail⟩
    · cases oper <;> exact hstep1 _ h
    · rcases o1 with items | s | n
      · cases oper with
        | TJ =>
          dsimp only
          cases replaceDigitInArray items
              ((mm.original.filter isDigitChar).getD 0 ' ')
              ((mm.replacement.filter isDigitChar).getD 0 ' ') with
          | some newItems =>
            exact hstep1 _ (setAt_arr_preserve h hna ⟨items, otail, hop⟩)
          | none => exact hstep1 _ h
        | Tj => exact hstep1 _ h
        | other name => exact hstep1 _ h
      · cases oper <;> exact hstep1 _ h
      · cases oper <;> exact hstep1 _ h

theorem applyCrossArrayReplacement_preserve (ops : List Op) (mm : CrossMatch)
    (i : Nat) (operands : List Operand)
    (h : ops[i]? = some (operands, Operator.TJ))
    (hna : headIsArr operands = false) :
    (applyCrossArrayReplacement ops mm).1[i]? = some (operands, Operator.TJ) := by
  unfold applyCrossArrayReplacement
  by_cases hc : ('.' ∈ mm.original ∧ ':' ∈ mm.original) ∧ 2 ≤ mm.windowOperations.length
  · rw [if_pos hc]
    exact applyDecimalCrossArrayReplacement_preserve ops mm i operands h hna
  · rw [if_neg hc]
    exact applySimpleCrossArrayReplacement_preserve ops mm i operands h hna

theorem crossFold_preserve (i : Nat) (operands : List Operand)
    (hna : headIsArr operands = false) :
    ∀ (ms : List CrossMatch) (acc : List Op × Bool),
      acc.1[i]? = some (operands, Operator.TJ) →
      ((ms.foldl (fun acc m =>
          let r := applyCrossArrayReplacement acc.1 m
          (r.1, acc.2 || r.2)) acc).1[i]? = some (operands, Operator.TJ)) := by
  intro ms
  induction ms with
  | nil => intro acc h; exact h
  | cons m rest ih =>
    intro acc h
    exact ih _ (applyCrossArrayReplacement_preserve acc.1 m i operands h hna)

theorem applyCrossArrayProcessing_preserve (pattern : Option RePattern)
    (mapping mappingCf : List (Str × Str)) (ops : List Op) (i : Nat)
    (operands : List Operand)
    (h : ops[i]? = some (operands, Operator.TJ))
    (hna : headIsArr operands = false) :
    (applyCrossArrayProcessing pattern mapping mappingCf ops).1[i]? =
      some (operands, Operator.TJ) := by
  unfold applyCrossArrayProcessing
  cases pattern with
  | none => exact h
  | some p =>
    dsimp only
    by_cases h1 : (tjOperationsFrom ops 0).length < 2
    · rw [if_pos h1]; exact h
    rw [if_neg h1]
    by_cases h2 : findCrossArrayMatches p mapping mappingCf (tjOperationsFrom ops 0) = []
    · rw [if_pos h2]; exact h
    rw [if_neg h2]
    exact crossFold_preserve i operands hna _ (ops, false) h

theorem v2ProcessOp_tj_notarr (pattern : Option RePattern)
    (mapping mappingCf : List (Str × Str)) (operands : List Operand)
    (h : headIsArr operands = false) :
    v2ProcessOp pattern mapping mappingCf operands .TJ = ((operands, .TJ), false) := by
  cases operands with
  | nil => rfl
  | cons o rest =>
    cases o with
    | arr items => simp [headIsArr] at h
    | text s => rfl
    | number n => rfl

theorem applyV2Processor_preserve (pattern : Option RePattern)
    (mapping mappingCf : List (Str × Str)) :
    ∀ (ops : List Op) (i : Nat) (operands : List Operand),
      ops[i]? = some (operands, Operator.TJ) → headIsArr operands = false →
      (applyV2Processor pattern mapping mappingCf ops).1[i]? =
        some (operands, Operator.TJ) := by
  intro ops
  induction ops with
  | nil => intro i operands h _; simp at h
  | cons op rest ih =>
    intro i operands h hna
    obtain ⟨opnds, oper⟩ := op
    cases i with
    | zero =>
      simp only [List.getElem?_cons_zero, Option.some.injEq] at h
      have h1 : opnds = operands := congrArg Prod.fst h
      have h2 : oper = Operator.TJ := congrArg Prod.snd h
      subst h1
      subst h2
      show ((v2ProcessOp pattern mapping mappingCf opnds Operator.TJ).1 ::
        (applyV2Processor pattern mapping mappingCf rest).1)[0]? =
          some (opnds, Operator.TJ)
      rw [v2ProcessOp_tj_notarr pattern mapping mappingCf opnds hna]
      simp
    | succ i =>
      simp only [List.getElem?_cons_succ] at h
      show ((v2ProcessOp pattern mapping mappingCf opnds oper).1 ::
        (applyV2Processor pattern mapping mappingCf rest).1)[i + 1]? =
          some (operands, Operator.TJ)
      rw [List.getElem?_cons_succ]
      exact ih i operands h hna

theorem tjOperationsFrom_cons_notarr (operands : List Operand)
    (h : headIsArr operands = false) (rest : List Op) (i : Nat) :
    tjOperationsFrom ((operands, Operator.TJ) :: rest) i = tjOperationsFrom rest (i + 1) := by
  cases operands with
  | nil => rfl
  | cons o otail =>
    cases o with
    | arr items => simp [headIsArr] at h
    | text s => rfl
    | number n => rfl

/-- C9: a show-positioned-array (TJ) instruction whose operand is not an
array-like structure passes through the whole engine unchanged: both engine
phases leave it at its position, and as a one-instruction stream the engine
returns it unchanged with modified=false; all embedded functions are total,
so no exception is raised. -/
theorem claim_C9_malformed_tj_passthrough (pattern : Option RePattern)
    (mapping mappingCf : List (Str × Str)) (ops : List Op) (i : Nat)
    (operands : List Operand) :
    (ops[i]? = some (operands, Operator.TJ) → headIsArr operands = false →
      (processContentOperations pattern mapping mappingCf ops).1[i]? =
        some (operands, Operator.TJ)) ∧
    (headIsArr operands = false →
      processContentOperations pattern mapping mappingCf [(operands, Operator.TJ)] =
        ([(operands, Operator.TJ)], false)) := by
  constructor
  · intro h hna
    unfold processContentOperations
    by_cases he : ops = []
    · subst he
      simp at h
    · rw [if_neg he]
      dsimp only
      exact applyCrossArrayProcessing_preserve pattern mapping mappingCf _ i operands
        (applyV2Processor_preserve pattern mapping mappingCf ops i operands h hna) hna
  · intro hna
    unfold processContentOperations
    rw [if_neg (by simp)]
    have hv2 : applyV2Processor pattern mapping mappingCf [(operands, Operator.TJ)] =
        ([(operands, Operator.TJ)], false) := by
      show ((v2ProcessOp pattern mapping mappingCf operands Operator.TJ).1 :: ([] : List Op),
        (v2ProcessOp pattern mapping mappingCf operands Operator.TJ).2 || false) =
          ([(operands, Operator.TJ)], false)
      rw [v2ProcessOp_tj_notarr pattern mapping mappingCf operands hna]
      simp
    rw [hv2]
    dsimp only
    have hcross : applyCrossArrayProcessing pattern mapping mappingCf
        [(operands, Operator.TJ)] = ([(operands, Operator.TJ)], false) := by
      unfold applyCrossArrayProcessing
      cases pattern with
      | none => rfl
      | some p =>
        dsimp only
        rw [tjOperationsFrom_cons_notarr operands hna [] 0]
        rw [if_pos (by simp [tjOperationsFrom])]
    rw [hcross]
    rfl

/-- Witness for C9: a TJ instruction whose operand is a plain string passes
through the engine unchanged with modified=false. -/
theorem claim_C9_witness :
    (processContentOperations none [] [] [([Operand.text ("abc".toList)], Operator.TJ)]).1[0]? =
      some ([Operand.text ("abc".toList)], Operator.TJ) ∧
    processContentOperations none [] [] [([Operand.text ("abc".toList)], Operator.TJ)] =
      ([([Operand.text ("abc".toList)], Operator.TJ)], false) :=
  ⟨(claim_C9_malformed_tj_passthrough none [] []
      [([Operand.text ("abc".toList)], Operator.TJ)] 0 [Operand.text ("abc".toList)]).1
      (by decide) (by decide),
    (claim_C9_malformed_tj_passthrough none [] []
      [([Operand.text ("abc".toList)], Operator.TJ)] 0 [Operand.text ("abc".toList)]).2
      (by decide)⟩

theorem strCount_cons_str (s : Str) (l : List Item) :
    strCount (Item.str s :: l) = strCount l + 1 := by
  simp [strCount, List.filter]

theorem strCount_cons_num (n : Int) (l : List Item) :
    strCount (Item.num n :: l) = strCount l := by
  simp [strCount, List.filter]

theorem writeBack_cons_str (segs : List Segment) (newTexts : List Str) (s : Str)
    (rest : List Item) (segIdx : Nat) :
    (writeBack segs newTexts (Item.str s :: rest) segIdx).1 =
      strItemOut segs newTexts segIdx s ::
        (writeBack segs newTexts rest (segIdx + 1)).1 := by
  rw [writeBack]
  unfold strItemOut
  cases segs[segIdx]? with
  | none => rfl
  | some seg =>
    dsimp only
    by_cases he : newTexts.getD segIdx [] = seg.clean
    · rw [if_pos he, if_pos he]
    · rw [if_neg he, if_neg he]

theorem writeBack_cons_num (segs : List Segment) (newTexts : List Str) (n : Int)
    (rest : List Item) (segIdx : Nat) :
    (writeBack segs newTexts (Item.num n :: rest) segIdx).1 =
      Item.num n :: (writeBack segs newTexts rest segIdx).1 := rfl

theorem writeBack_length (segs : List Segment) (newTexts : List Str) :
    ∀ (items : List Item) (segIdx : Nat),
      (writeBack segs newTexts items segIdx).1.length = items.length := by
  intro items
  induction items with
  | nil => intro segIdx; rfl
  | cons it rest ih =>
    intro segIdx
    cases it with
    | str s => rw [writeBack_cons_str]; simp [ih]
    | num n => rw [writeBack_cons_num]; simp [ih]

theorem writeBack_get (segs : List Segment) (newTexts : List Str) :
    ∀ (items : List Item) (segIdx i : Nat),
      (writeBack segs newTexts items segIdx).1[i]? =
        match items[i]? with
        | none => none
        | some (Item.num n) => some (Item.num n)
        | some (Item.str s) =>
          some (strItemOut segs newTexts (segIdx + strCount (items.take i)) s) := by
  intro items
  induction items with
  | nil => intro segIdx i; simp [writeBack]
  | cons it rest ih =>
    intro segIdx i
    cases it with
    | str s =>
      rw [writeBack_cons_str]
      cases i with
      | zero => simp [strCount]
      | succ i =>
        rw [List.getElem?_cons_succ, ih (segIdx + 1) i, List.getElem?_cons_succ]
        have ht : (Item.str s :: rest).take (i + 1) = Item.str s :: rest.take i := rfl
        rw [ht, strCount_cons_str]
        have ha : segIdx + (strCount (rest.take i) + 1) =
            segIdx + 1 + strCount (rest.take i) := by omega
        rw [ha]
    | num n =>
      rw [writeBack_cons_num]
      cases i with
      | zero => simp
      | succ i =>
        rw [List.getElem?_cons_succ, ih segIdx i, List.getElem?_cons_succ]
        have ht : (Item.num n :: rest).take (i + 1) = Item.num n :: rest.take i := rfl
        rw [ht, strCount_cons_num]

theorem extractSegments_seg_at :
    ∀ (items : List Item) (ai pos si i : Nat) (s : Str),
      items[i]? = some (Item.str s) →
      ∃ a b c, (extractSegments items ai pos si).1[strCount (items.take i)]? =
        some ⟨a, s, cleanSpecialChars s, b, c⟩ := by
  intro items
  induction items with
  | nil => intro ai pos si i s h; simp at h
  | cons it rest ih =>
    intro ai pos si i s h
    cases it with
    | str s0 =>
      cases i with
      | zero =>
        simp only [List.getElem?_cons_zero, Option.some.injEq] at h
        have hs : s0 = s := by injection h
        subst hs
        refine ⟨ai, pos, pos + (cleanSpecialChars s0).length, ?_⟩
        show (extractSegments (Item.str s0 :: rest) ai pos si).1[strCount ((Item.str s0 :: rest).take 0)]? = _
        simp [extractSegments, strCount]
      | succ i =>
        rw [List.getElem?_cons_succ] at h
        have ht : (Item.str s0 :: rest).take (i + 1) = Item.str s0 :: rest.take i := rfl
        rw [ht, strCount_cons_str]
        obtain ⟨a, b, c, hx⟩ :=
          ih (ai + 1) (pos + (cleanSpecialChars s0).length) (si + 1) i s h
        refine ⟨a, b, c, ?_⟩
        show (extractSegments (Item.str s0 :: rest) ai pos si).1[strCount (rest.take i) + 1]? = _
        rw [extractSegments]
        dsimp only
        rw [List.getElem?_cons_succ]
        exact hx
    | num n =>
      cases i with
      | zero => simp at h
      | succ i =>
        rw [List.getElem?_cons_succ] at h
        have ht : (Item.num n :: rest).take (i + 1) = Item.num n :: rest.take i := rfl
        rw [ht, strCount_cons_num]
        by_cases hn : n ≤ spaceThreshold
        · obtain ⟨a, b, c, hx⟩ := ih (ai + 1) (pos + 1) si i s h
          refine ⟨a, b, c, ?_⟩
          rw [extractSegments]
          rw [if_pos hn]
          exact hx
        · obtain ⟨a, b, c, hx⟩ := ih (ai + 1) pos si i s h
          refine ⟨a, b, c, ?_⟩
          rw [extractSegments]
          rw [if_neg hn]
          exact hx

theorem appendAt_length : ∀ (acc : List Str) (k : Nat) (c : Char),
    (appendAt acc k c).length = acc.length := by
  intro acc
  induction acc with
  | nil => intro k c; rfl
  | cons s rest ih =>
    intro k c
    cases k with
    | zero => rfl
    | succ k => simp [appendAt, ih]

theorem aggregate_length : ∀ (l : List (Char × Option Nat)) (acc : List Str),
    (aggregate l acc).length = acc.length := by
  intro l
  induction l with
  | nil => intro acc; rfl
  | cons p rest ih =>
    intro acc
    obtain ⟨c, o⟩ := p
    cases o with
    | none => exact ih acc
    | some k =>
      show (aggregate rest (appendAt acc k c)).length = acc.length
      rw [ih, appendAt_length]

theorem strItemOut_exists_str (segs : List Segment) (newTexts : List Str)
    (j : Nat) (s : Str) :
    ∃ t, strItemOut segs newTexts j s = Item.str t := by
  unfold strItemOut
  cases segs[j]? with
  | none => exact ⟨s, rfl⟩
  | some seg =>
    dsimp only
    by_cases he : newTexts.getD j [] = seg.clean
    · refine ⟨s, ?_⟩
      rw [if_pos he]
    · refine ⟨restoreSpecialChars (newTexts.getD j []) seg.raw, ?_⟩
      rw [if_neg he]

theorem processTjArray_early_combined (pattern : Option RePattern)
    (mapping mappingCf : List (Str × Str)) (items : List Item)
    (h2 : (extractSegments items 0 0 0).2.2 = []) :
    processTjArray pattern mapping mappingCf items = (items, false) := by
  unfold processTjArray
  by_cases h1 : items = []
  · rw [if_pos h1]
  · rw [if_neg h1]
    dsimp only
    rw [if_pos h2]

theorem aggregatedTexts_of_combined_empty (pattern : Option RePattern)
    (mapping mappingCf : List (Str × Str)) (items : List Item)
    (h2 : (extractSegments items 0 0 0).2.2 = []) :
    aggregatedTexts pattern mapping mappingCf items =
      (extractSegments items 0 0 0).1.map (·.clean) := by
  unfold aggregatedTexts
  rw [if_pos h2]

theorem aggregatedTexts_of_applyRepl_none (pattern : Option RePattern)
    (mapping mappingCf : List (Str × Str)) (items : List Item)
    (h2 : (extractSegments items 0 0 0).2.2 ≠ [])
    (hr : applyReplacements pattern mapping mappingCf
      (extractSegments items 0 0 0).2.2 = none) :
    aggregatedTexts pattern mapping mappingCf items =
      (extractSegments items 0 0 0).1.map (·.clean) := by
  unfold aggregatedTexts
  rw [if_neg h2, hr]

theorem processTjArray_main (pattern : Option RePattern)
    (mapping mappingCf : List (Str × Str)) (items : List Item)
    (r : Str × List Replacement)
    (h1 : items ≠ []) (h2 : (extractSegments items 0 0 0).2.2 ≠ [])
    (hr : applyReplacements pattern mapping mappingCf
      (extractSegments items 0 0 0).2.2 = some r) :
    processTjArray pattern mapping mappingCf items =
      writeBack (extractSegments items 0 0 0).1
        (aggregatedTexts pattern mapping mappingCf items) items 0 := by
  unfold processTjArray aggregatedTexts
  rw [if_neg h1]
  dsimp only
  rw [if_neg h2, hr, if_neg h2]

theorem processTjArray_frame_of_identity (pattern : Option RePattern)
    (mapping mappingCf : List (Str × Str)) (items : List Item) (i : Nat)
    (hout : processTjArray pattern mapping mappingCf items = (items, false))
    (haggs : aggregatedTexts pattern mapping mappingCf items =
      (extractSegments items 0 0 0).1.map (·.clean)) :
    (∀ n : Int, items[i]? = some (Item.num n) →
      (processTjArray pattern mapping mappingCf items).1[i]? = some (Item.num n)) ∧
    (∀ s : Str, items[i]? = some (Item.str s) →
      (aggregatedTextAt pattern mapping mappingCf items i s = cleanSpecialChars s →
        (processTjArray pattern mapping mappingCf items).1[i]? = some (Item.str s)) ∧
      (aggregatedTextAt pattern mapping mappingCf items i s ≠ cleanSpecialChars s →
        (processTjArray pattern mapping mappingCf items).1[i]? =
          some (Item.str (restoreSpecialChars
            (aggregatedTextAt pattern mapping mappingCf items i s) s)))) := by
  constructor
  · intro n hn
    rw [hout]
    exact hn
  · intro s hs
    obtain ⟨a, b, c, hseg⟩ := extractSegments_seg_at items 0 0 0 i s hs
    have hagg : aggregatedTextAt pattern mapping mappingCf items i s =
        cleanSpecialChars s := by
      unfold aggregatedTextAt
      rw [haggs, List.getD_eq_getElem?_getD, List.getElem?_map, hseg]
      rfl
    exact ⟨fun _ => by rw [hout]; exact hs, fun hne => absurd hagg hne⟩

/-- C1: in every positioned array processed by the single-instruction
rewriter, numeric items appear unchanged at their positions in the output;
a string item whose aggregated text equals its original cleaned text is
emitted as the original item, and only string items whose aggregated text
changed are replaced, by a new string item carrying the new text with the
original trailing specials restored. -/
theorem claim_C1_single_rewrite_frame (pattern : Option RePattern)
    (mapping mappingCf : List (Str × Str)) (items : List Item) (i : Nat) :
    (∀ n : Int, items[i]? = some (Item.num n) →
      (processTjArray pattern mapping mappingCf items).1[i]? = some (Item.num n)) ∧
    (∀ s : Str, items[i]? = some (Item.str s) →
      (aggregatedTextAt pattern mapping mappingCf items i s = cleanSpecialChars s →
        (processTjArray pattern mapping mappingCf items).1[i]? = some (Item.str s)) ∧
      (aggregatedTextAt pattern mapping mappingCf items i s ≠ cleanSpecialChars s →
        (processTjArray pattern mapping mappingCf items).1[i]? =
          some (Item.str (restoreSpecialChars
            (aggregatedTextAt pattern mapping mappingCf items i s) s)))) := by
  by_cases h2 : (extractSegments items 0 0 0).2.2 = []
  · exact processTjArray_frame_of_identity pattern mapping mappingCf items i
      (processTjArray_early_combined pattern mapping mappingCf items h2)
      (aggregatedTexts_of_combined_empty pattern mapping mappingCf items h2)
  · have h1 : items ≠ [] := fun he => h2 (by subst he; rfl)
    cases hr : applyReplacements pattern mapping mappingCf
        (extractSegments items 0 0 0).2.2 with
    | none =>
      exact processTjArray_frame_of_identity pattern mapping mappingCf items i
        (processTjArray_of_applyRepl_none pattern mapping mappingCf items hr)
        (aggregatedTexts_of_applyRepl_none pattern mapping mappingCf items h2 hr)
    | some r =>
      have hout := processTjArray_main pattern mapping mappingCf items r h1 h2 hr
      constructor
      · intro n hn
        rw [hout, writeBack_get, hn]
      · intro s hs
        obtain ⟨a, b, c, hseg⟩ := extractSegments_seg_at items 0 0 0 i s hs
        have hjlt : strCount (items.take i) < (extractSegments items 0 0 0).1.length := by
          by_contra hnlt
          rw [List.getElem?_eq_none (Nat.le_of_not_lt hnlt)] at hseg
          exact absurd hseg (by simp)
        have hlen : (aggregatedTexts pattern mapping mappingCf items).length =
            (extractSegments items 0 0 0).1.length := by
          unfold aggregatedTexts
          rw [if_neg h2, hr]
          dsimp only
          rw [aggregate_length]
          simp
        obtain ⟨v, hv⟩ : ∃ v,
            (aggregatedTexts pattern mapping mappingCf items)[strCount (items.take i)]? =
              some v := by
          have hlt : strCount (items.take i) <
              (aggregatedTexts pattern mapping mappingCf items).length := by
            rw [hlen]; exact hjlt
          exact ⟨_, (List.getElem?_eq_some_getElem_iff _ _ hlt).mpr trivial⟩
        have hgetD1 : (aggregatedTexts pattern mapping mappingCf items).getD
            (strCount (items.take i)) [] = v := by
          rw [List.getD_eq_getElem?_getD, hv]; rfl
        have hgetD2 : aggregatedTextAt pattern mapping mappingCf items i s = v := by
          unfold aggregatedTextAt
          rw [List.getD_eq_getElem?_getD, hv]; rfl
        constructor
        · intro he
          have hvc : v = cleanSpecialChars s := by rw [← hgetD2]; exact he
          rw [hout, writeBack_get, hs]
          dsimp only
          unfold strItemOut
          rw [Nat.zero_add, hseg]
          dsimp only
          rw [hgetD1, if_pos hvc]
        · intro hne
          have hvc : ¬ v = cleanSpecialChars s := by rw [← hgetD2]; exact hne
          rw [hout, writeBack_get, hs]
          dsimp only
          unfold strItemOut
          rw [Nat.zero_add, hseg]
          dsimp only
          rw [hgetD1, if_neg hvc, hgetD2]

/-- Witness for C1: on the spec's example array `["He", -50, "llo", 500,
" world"]` with mapping Hello↦Howdy, the numeric item -50 stays at position
1 and the untouched segment " world" is re-emitted as the original item. -/
theorem claim_C1_witness :
    (processTjArray exPatHello exMapHello exMapHelloCf exItemsHello).1[1]? =
      some (Item.num (-50)) ∧
    (processTjArray exPatHello exMapHello exMapHelloCf exItemsHello).1[4]? =
      some (Item.str (" world".toList)) :=
  ⟨(claim_C1_single_rewrite_frame exPatHello exMapHello exMapHelloCf exItemsHello 1).1
      (-50) (by decide),
    ((claim_C1_single_rewrite_frame exPatHello exMapHello exMapHelloCf exItemsHello 4).2
      (" world".toList) (by decide)).1 (by decide)⟩

/-- C10: the single-instruction rewriter preserves the item count exactly,
never deleting or inserting items (a string item stays a string item, even
when all its characters were dropped); an empty input array or an empty
cleaned combined text short-circuits to the input array object itself with
modified=false. -/
theorem claim_C10_item_count (pattern : Option RePattern)
    (mapping mappingCf : List (Str × Str)) (items : List Item) :
    ((processTjArray pattern mapping mappingCf items).1.length = items.length) ∧
    (items = [] → processTjArray pattern mapping mappingCf items = (items, false)) ∧
    (combinedTextOf items = [] →
      processTjArray pattern mapping mappingCf items = (items, false)) ∧
    (∀ (i : Nat) (s : Str), items[i]? = some (Item.str s) →
      ∃ t, (processTjArray pattern mapping mappingCf items).1[i]? =
        some (Item.str t)) := by
  refine ⟨?_, ?_, ?_, ?_⟩
  · by_cases h2 : (extractSegments items 0 0 0).2.2 = []
    · rw [processTjArray_early_combined pattern mapping mappingCf items h2]
    · have h1 : items ≠ [] := fun he => h2 (by subst he; rfl)
      cases hr : applyReplacements pattern mapping mappingCf
          (extractSegments items 0 0 0).2.2 with
      | none =>
        rw [processTjArray_of_applyRepl_none pattern mapping mappingCf items hr]
      | some r =>
        rw [processTjArray_main pattern mapping mappingCf items r h1 h2 hr]
        exact writeBack_length _ _ items 0
  · intro h
    unfold processTjArray
    rw [if_pos h]
  · intro h
    exact processTjArray_early_combined pattern mapping mappingCf items h
  · intro i s hs
    by_cases h2 : (extractSegments items 0 0 0).2.2 = []
    · rw [processTjArray_early_combined pattern mapping mappingCf items h2]
      exact ⟨s, hs⟩
    · have h1 : items ≠ [] := fun he => h2 (by subst he; rfl)
      cases hr : applyReplacements pattern mapping mappingCf
          (extractSegments items 0 0 0).2.2 with
      | none =>
        rw [processTjArray_of_applyRepl_none pattern mapping mappingCf items hr]
        exact ⟨s, hs⟩
      | some r =>
        rw [processTjArray_main pattern mapping mappingCf items r h1 h2 hr]
        rw [writeBack_get, hs]
        dsimp only
        obtain ⟨t, ht⟩ := strItemOut_exists_str (extractSegments items 0 0 0).1
          (aggregatedTexts pattern mapping mappingCf items)
          (0 + strCount (items.take i)) s
        exact ⟨t, by rw [ht]⟩

/-- Witness for C10: the empty array and an array holding a single small
kerning number short-circuit unchanged; on the spec's example array the
emptied segment "llo" is still emitted as a (now empty) string item. -/
theorem claim_C10_witness :
    processTjArray none [] [] ([] : List Item) = ([], false) ∧
    processTjArray none [] [] [Item.num 5] = ([Item.num 5], false) ∧
    (∃ t, (processTjArray exPatHello exMapHello exMapHelloCf exItemsHello).1[2]? =
      some (Item.str t)) :=
  ⟨(claim_C10_item_count none [] [] []).2.1 rfl,
    (claim_C10_item_count none [] [] [Item.num 5]).2.2.1 (by decide),
    (claim_C10_item_count exPatHello exMapHello exMapHelloCf exItemsHello).2.2.2
      2 ("llo".toList) (by decide)⟩

end GlyphMapper
